import Mathlib

/-!
# Verification of the hexy-app colour-extraction pipeline

Shallow embedding of the colour-extraction core implemented in
`src/client/src/contexts/ThemeContext.tsx` (the `useColorExtractor` hook and
its helper functions), together with proofs settling the frozen claims about
that code.

Modelling conventions:

* 8-bit channel values (entries of the RGBA pixel buffer) are natural numbers;
  every JavaScript integer computation on them is embedded exactly over `ℕ`.
* Floating-point quantities are modelled as exact rationals `ℚ`; float
  comparisons become rational comparisons.
* The transcendental numeric kernels — the sRGB→Lab conversion `rgbToLab`, the
  Euclidean metric `euclideanLab` (ΔE76) and the CIEDE2000 metric `deltaE00`,
  all computed with floating-point `Math.cbrt`/`Math.pow`/trig in the source —
  are *parameters* (`toLab`, `d76`, `d00`) of the embedded pipeline, so every
  pipeline theorem quantifies over them and therefore covers the actual
  floating-point kernels, whose values are particular rationals.  The CIEDE2000
  formula itself is additionally embedded over `ℝ` (namespace `DE`) to settle
  the metric-sanity claim.
* The random k-means++ initialisation (`kMeansLab`, `Math.random`) is modelled
  by quantifying over the resulting centroid list; the only facts the
  surrounding code relies on — the list is non-empty and has at most
  `initialK ≤ 16` entries, since `kMeansLab` always returns exactly `k`
  centroids with `k = max(4, min(16, round(sqrt N)))` — appear as hypotheses
  where needed.
-/

namespace Hexy

/-- An RGB triple, 8-bit channels `(r, g, b)`. -/
abbrev Rgb : Type := ℕ × ℕ × ℕ

/-- A Lab triple `(L, a, b)`; float components modelled as exact rationals. -/
abbrev Lab3 : Type := ℚ × ℚ × ℚ

/-- One RGBA pixel as read from the buffer. -/
structure Rgba where
  r : ℕ
  g : ℕ
  b : ℕ
  a : ℕ
deriving DecidableEq

/-- An `{rgb, lab}` pair (source: `labPoints = dedup.map((rgb) => ({rgb, lab}))`). -/
structure LabPoint where
  rgb : Rgb
  lab : Lab3
deriving DecidableEq

/-- A cluster: a centroid plus the points assigned to it
(source: `{centroid, points}` objects of `assignPointsToCentroids`). -/
structure LabCluster where
  centroid : Lab3
  points : List LabPoint
deriving DecidableEq

/-- A palette entry (source interface `Color { hex, rgb }`). -/
structure Color where
  hex : String
  rgb : Rgb
deriving DecidableEq

/-- Pipeline failures (source: the two `throw new Error(...)` sites of
`extractColors`): `emptyInput` = "No valid colors found in image",
`noColorsRemain` = "No valid colors after filtering". -/
inductive ExtractError where
  | emptyInput
  | noColorsRemain
deriving DecidableEq

deriving instance DecidableEq for Except

/-- `chooseStride` (ThemeContext.tsx:187-193). -/
def chooseStride (width height : ℕ) : ℕ :=
  let pixels := width * height
  if 800000 < pixels then 6
  else if 400000 < pixels then 4
  else if 150000 < pixels then 3
  else 2

/-- The pixel at grid coordinate `(x, y)` of a row-major RGBA buffer
(source: `i = (y * width + x) * 4; data[i], data[i+1], data[i+2], data[i+3]`).
Out-of-range reads default to 0; the pipeline only reads in range. -/
def pixelAt (data : List ℕ) (width : ℕ) (x y : ℕ) : Rgba :=
  let i := (y * width + x) * 4
  ⟨data.getD i 0, data.getD (i + 1) 0, data.getD (i + 2) 0, data.getD (i + 3) 0⟩

/-- The body of the inner sampling loop (ThemeContext.tsx:210-224): skip the
pixel when its alpha is below the threshold (`continue`), when it is
near-white (`maxC > 250 && minC > 245`) or near-black (`maxC < 10 && minC < 10`);
otherwise push its RGB triple. -/
def samplePixelsBody (data : List ℕ) (width skipAlphaBelow y : ℕ)
    (acc : List Rgb) (x : ℕ) : List Rgb :=
  let px := pixelAt data width x y
  if px.a < skipAlphaBelow then acc
  else
    let maxC := max px.r (max px.g px.b)
    let minC := min px.r (min px.g px.b)
    if 250 < maxC ∧ 245 < minC then acc
    else if maxC < 10 ∧ minC < 10 then acc
    else acc ++ [(px.r, px.g, px.b)]

/-- `samplePixels` (ThemeContext.tsx:195-229): walk the grid at the stride
(both axes, `for (let y = 0; y < height; y += stride)` visits exactly the
multiples of the stride below `height`); the two nested loops with
`result.push` are embedded as nested left folds appending to the accumulator. -/
def samplePixels (data : List ℕ) (width height stride skipAlphaBelow : ℕ) : List Rgb :=
  let stride1 := max 1 stride
  ((List.range height).filter (fun y => y % stride1 = 0)).foldl (fun acc y =>
    ((List.range width).filter (fun x => x % stride1 = 0)).foldl
      (samplePixelsBody data width skipAlphaBelow y) acc) []

/-- `pushPx` inside `detectBackground` (ThemeContext.tsx:239-243): keep a border
pixel iff its alpha is ≥ 200. -/
def pushPx (data : List ℕ) (idx : ℕ) : List Rgb :=
  if data.getD (idx + 3) 0 < 200 then []
  else [(data.getD idx 0, data.getD (idx + 1) 0, data.getD (idx + 2) 0)]

/-- The border-pixel list of `detectBackground` (ThemeContext.tsx:245-252):
top and bottom rows interleaved per column, then left and right columns
interleaved per row. -/
def borderPixels (data : List ℕ) (width height : ℕ) : List Rgb :=
  ((List.range width).flatMap fun x =>
    pushPx data ((0 * width + x) * 4) ++ pushPx data (((height - 1) * width + x) * 4)) ++
  ((List.range height).flatMap fun y =>
    pushPx data ((y * width + 0) * 4) ++ pushPx data ((y * width + (width - 1)) * 4))

/-- Component-wise arithmetic mean of Lab triples
(source: `labs.reduce((s, p) => s + p[k], 0) / labs.length` per component). -/
def labMean3 (labs : List Lab3) : Lab3 :=
  ((labs.map fun p => p.1).sum / (labs.length : ℚ),
   (labs.map fun p => p.2.1).sum / (labs.length : ℚ),
   (labs.map fun p => p.2.2).sum / (labs.length : ℚ))

/-- One step of the frequency map construction in `mostFrequentRgb`
(ThemeContext.tsx:297-300): `freq.set(key, (freq.get(key) || 0) + 1)`.  The
JavaScript `Map` keyed by the string `r,g,b` (the stringification is injective)
and iterated in insertion order is modelled as an association list in insertion
order. -/
def bumpKey (acc : List (Rgb × ℕ)) (r : Rgb) : List (Rgb × ℕ) :=
  if acc.any fun e => decide (e.1 = r) then
    acc.map fun e => if e.1 = r then (e.1, e.2 + 1) else e
  else acc ++ [(r, 1)]

/-- The completed frequency map of `mostFrequentRgb`, in insertion order. -/
def freqList (pixels : List Rgb) : List (Rgb × ℕ) := pixels.foldl bumpKey []

/-- One iteration of the selection loop of `mostFrequentRgb`
(ThemeContext.tsx:303-308): `if (count > bestCount) { bestCount = count; bestKey = key }`. -/
def pickStep (best : Rgb × ℤ) (e : Rgb × ℕ) : Rgb × ℤ :=
  if best.2 < (e.2 : ℤ) then (e.1, (e.2 : ℤ)) else best

/-- The selection loop of `mostFrequentRgb` (ThemeContext.tsx:301-308):
`bestCount = -1`, strict `>` so the first maximal entry wins. -/
def pickMax (entries : List (Rgb × ℕ)) : Rgb × ℤ :=
  entries.foldl pickStep ((0, 0, 0), -1)

/-- `mostFrequentRgb` (ThemeContext.tsx:294-311). -/
def mostFrequentRgb (pixels : List Rgb) : Rgb :=
  if pixels = [] then (0, 0, 0) else (pickMax (freqList pixels)).1

/-- Total multiplicity recorded for key `q` in a frequency association list
(metric used to reason about `freqList`). -/
def assocCount (acc : List (Rgb × ℕ)) (q : Rgb) : ℕ :=
  ((acc.filter fun e => decide (e.1 = q)).map fun e => e.2).sum

/-- `detectBackground` (ThemeContext.tsx:231-272), with the Lab conversion and
the ΔE00 metric as parameters.  `within >= 0.6` on floats becomes the exact
rational comparison. -/
def detectBackground (toLab : Rgb → Lab3) (d00 : Lab3 → Lab3 → ℚ)
    (data : List ℕ) (width height : ℕ) : Option Rgb :=
  let border := borderPixels data width height
  if border.length < 20 then none
  else
    let labs := border.map toLab
    let centroid := labMean3 labs
    let within := (((labs.filter fun p => decide (d00 p centroid ≤ 6)).length : ℚ)) /
      (labs.length : ℚ)
    if 0.6 ≤ within then some (mostFrequentRgb border) else none

/-- One channel of the quantisation in `deduplicateRgb` (ThemeContext.tsx:282):
`Math.round(clamp(c) / step) * step` with `clamp` into `[0, 255]` (the lower
clamp is vacuous over `ℕ`).  `Math.round` rounds half up, and for `0 ≤ q`,
`round(q) = ⌊q + 1/2⌋`, so `round(c / step) = ⌊(2c + step) / (2step)⌋`,
which the natural division below computes exactly. -/
def quantCh (step c : ℕ) : ℕ := ((2 * min 255 c + step) / (2 * step)) * step

/-- The per-pixel quantisation of `deduplicateRgb`. -/
def quantize (step : ℕ) (p : Rgb) : Rgb :=
  (quantCh step p.1, quantCh step p.2.1, quantCh step p.2.2)

/-- `deduplicateRgb` (ThemeContext.tsx:274-292): the `seen` set of stringified
keys (the stringification is injective, so it is the set of quantised triples
already pushed, i.e. the set of members of `out`), and `out.push([rr, gg, bb])`
pushes the *quantised* triple. -/
def deduplicateRgb (pixels : List Rgb) (step : ℕ) : List Rgb :=
  pixels.foldl (fun out p =>
    let q := quantize step p
    if q ∈ out then out else out ++ [q]) []

/-- The argmin loop of `assignPointsToCentroids` (ThemeContext.tsx:382-390):
`best = 0`, `bestDist = Infinity` (modelled as `none`), strict `<` so the first
minimising index wins. -/
def bestIndexAux : List ℚ → ℕ → ℕ → Option ℚ → ℕ
  | [], _, best, _ => best
  | d :: rest, i, _, none => bestIndexAux rest (i + 1) i (some d)
  | d :: rest, i, best, some bd =>
    if d < bd then bestIndexAux rest (i + 1) i (some d)
    else bestIndexAux rest (i + 1) best (some bd)

/-- Index of the centroid nearest (by `d76`, first wins on ties) to `lab`. -/
def bestIndex (d76 : Lab3 → Lab3 → ℚ) (lab : Lab3) (centroids : List Lab3) : ℕ :=
  bestIndexAux (centroids.map fun c => d76 lab c) 0 0 none

/-- `assignPointsToCentroids` (ThemeContext.tsx:376-394): one cluster per
centroid, each point pushed (in point order) onto the cluster of its nearest
centroid — i.e. cluster `i` holds the points whose best index is `i` — and
empty clusters are dropped at the end. -/
def assignPointsToCentroids (d76 : Lab3 → Lab3 → ℚ)
    (labPoints : List LabPoint) (centroids : List Lab3) : List LabCluster :=
  (((List.range centroids.length).map fun i =>
      ({ centroid := centroids.getD i (0, 0, 0)
         points := labPoints.filter fun p => decide (bestIndex d76 p.lab centroids = i) }
        : LabCluster))).filter fun c => decide (0 < c.points.length)

/-- The inner search of the merge pass in `mergeAndFilterClusters`
(ThemeContext.tsx:404-424): find the first already-merged cluster whose
centroid is within `mergeDeltaE00` of `c`'s centroid; absorb `c`'s points into
it (appended at the end, centroid recomputed as the Lab mean of the combined
membership); if none matches, start a new merged cluster at the end. -/
def mergeInto (d00 : Lab3 → Lab3 → ℚ) (mergeDeltaE00 : ℚ) (c : LabCluster) :
    List LabCluster → List LabCluster
  | [] => [{ centroid := c.centroid, points := c.points }]
  | m :: rest =>
    if d00 c.centroid m.centroid < mergeDeltaE00 then
      let pts := m.points ++ c.points
      { centroid := labMean3 (pts.map fun p => p.lab), points := pts } :: rest
    else m :: mergeInto d00 mergeDeltaE00 c rest

/-- The full greedy merge pass of `mergeAndFilterClusters`. -/
def mergePass (d00 : Lab3 → Lab3 → ℚ) (mergeDeltaE00 : ℚ)
    (clusters : List LabCluster) : List LabCluster :=
  clusters.foldl (fun merged c => mergeInto d00 mergeDeltaE00 c merged) []

/-- The population floor of `mergeAndFilterClusters` (ThemeContext.tsx:428):
`Math.max(1, Math.floor((minPercent / 100) * total))`. -/
def minCountFor (minPercent : ℚ) (total : ℕ) : ℕ :=
  max 1 (Int.toNat ⌊minPercent / 100 * (total : ℚ)⌋)

/-- `mergeAndFilterClusters` (ThemeContext.tsx:396-430): early return when at
most one cluster, else greedy merge followed by the population-floor filter. -/
def mergeAndFilterClusters (d00 : Lab3 → Lab3 → ℚ) (clusters : List LabCluster)
    (mergeDeltaE00 minPercent : ℚ) : List LabCluster :=
  if clusters.length ≤ 1 then clusters
  else
    let merged := mergePass d00 mergeDeltaE00 clusters
    let total := (merged.map fun c => c.points.length).sum
    let minCount := minCountFor minPercent total
    merged.filter fun c => decide (minCount ≤ c.points.length)

/-- The sort of `extractColors` (ThemeContext.tsx:142):
`.sort((a, b) => b.points.length - a.points.length)` — a stable sort putting
`a` before `b` when the comparator is ≤ 0, i.e. when
`b.points.length ≤ a.points.length`.  JavaScript's `Array.prototype.sort` is
stable, and a stable sort's output is determined by the ordering, so the
(stable) insertion sort with the same relation produces the same list. -/
def sortClusters (clusters : List LabCluster) : List LabCluster :=
  clusters.insertionSort fun a b => b.points.length ≤ a.points.length

/-- `toHex` inside `rgbToHex` (ThemeContext.tsx:538-541):
`Math.max(0, Math.min(255, Math.round(n)))` (over `ℕ`: `min 255 n`), base-16
digit string (`Nat.toDigits 16` yields the same lowercase digits as
`toString(16)`), left-padded with `'0'` to two characters. -/
def toHex (n : ℕ) : List Char :=
  let h := Nat.toDigits 16 (min 255 n)
  if h.length = 1 then '0' :: h else h

/-- `rgbToHex` (ThemeContext.tsx:537-543): `` `#${...}` `` then
`.toUpperCase()` over the whole string. -/
def rgbToHex (r g b : ℕ) : String :=
  String.mk ((('#' :: toHex r) ++ toHex g ++ toHex b).map Char.toUpper)

/-- The palette entry built for one surviving cluster (ThemeContext.tsx:143-146). -/
def clusterEntry (c : LabCluster) : Color :=
  let rgb := mostFrequentRgb (c.points.map fun p => p.rgb)
  { hex := rgbToHex rgb.1 rgb.2.1 rgb.2.2, rgb := rgb }

/-- The sampling stage of `extractColors` (ThemeContext.tsx:105-108):
`samplePixels(imageData, { stride: chooseStride(w, h), skipAlphaBelow: 160 })`. -/
def sampledOf (data : List ℕ) (width height : ℕ) : List Rgb :=
  samplePixels data width height (chooseStride width height) 160

/-- The background-removal stage of `extractColors` (ThemeContext.tsx:112-115):
keep a sample iff its ΔE00 to the detected background exceeds 8. -/
def withNoBgOf (toLab : Rgb → Lab3) (d00 : Lab3 → Lab3 → ℚ)
    (data : List ℕ) (width height : ℕ) : List Rgb :=
  match detectBackground toLab d00 data width height with
  | some bgc =>
    (sampledOf data width height).filter fun p => decide (8 < d00 (toLab p) (toLab bgc))
  | none => sampledOf data width height

/-- The deduplicated samples of `extractColors` (ThemeContext.tsx:118):
`deduplicateRgb(withNoBg, 8)`. -/
def dedupOf (toLab : Rgb → Lab3) (d00 : Lab3 → Lab3 → ℚ)
    (data : List ℕ) (width height : ℕ) : List Rgb :=
  deduplicateRgb (withNoBgOf toLab d00 data width height) 8

/-- The Lab points fed to clustering (ThemeContext.tsx:122). -/
def labPointsOf (toLab : Rgb → Lab3) (d00 : Lab3 → Lab3 → ℚ)
    (data : List ℕ) (width height : ℕ) : List LabPoint :=
  (dedupOf toLab d00 data width height).map fun rgb => { rgb := rgb, lab := toLab rgb }

/-- `initialK` (ThemeContext.tsx:126): `max(4, min(16, round(sqrt(uniqueCount))))`
always lies in `[4, 16]`; only the bound on the centroid count matters to the
claims, so the value of `round(sqrt N)` stays abstract. -/
def initialKBound : ℕ := 16

/-- The ordered cluster list the palette is built from (ThemeContext.tsx:129-142):
assignment of the Lab points to the (k-means produced) centroids, greedy
ΔE00-merge with threshold 10 and population floor 1.5%, then the stable sort by
descending population. -/
def extractClusters (toLab : Rgb → Lab3) (d76 d00 : Lab3 → Lab3 → ℚ)
    (data : List ℕ) (width height : ℕ) (centroids : List Lab3) : List LabCluster :=
  sortClusters (mergeAndFilterClusters d00
    (assignPointsToCentroids d76 (labPointsOf toLab d00 data width height) centroids)
    10 1.5)

/-- The synchronous core of `extractColors` (ThemeContext.tsx:104-151) from the
decoded pixel buffer to the palette, with its two typed failures; the random
k-means centroids are the `centroids` parameter. -/
def extractCore (toLab : Rgb → Lab3) (d76 d00 : Lab3 → Lab3 → ℚ)
    (data : List ℕ) (width height : ℕ) (centroids : List Lab3) :
    Except ExtractError (List Color) :=
  if (sampledOf data width height).length = 0 then .error .emptyInput
  else if (dedupOf toLab d00 data width height).length = 0 then .error .noColorsRemain
  else .ok ((extractClusters toLab d76 d00 data width height centroids).map clusterEntry)

/-! ## Claim-side (spec-worded) definitions

These definitions are *not* translated from the source; they follow the words
of the specification sentences under scrutiny, to be compared with the
source-derived definitions above. -/

/-- The discard condition of claim C6, word for word: alpha < 160, or
near-white ("all channels > 250 and min channel > 245"), or near-black
("all channels < 10"). -/
def claimDiscardC6 (px : Rgba) : Prop :=
  px.a < 160 ∨
  ((250 < px.r ∧ 250 < px.g ∧ 250 < px.b) ∧ 245 < min px.r (min px.g px.b)) ∨
  (px.r < 10 ∧ px.g < 10 ∧ px.b < 10)

instance (px : Rgba) : Decidable (claimDiscardC6 px) := by
  unfold claimDiscardC6; infer_instance

/-- The amended discard condition: as C6, with "all channels > 250" corrected
to "the maximum channel > 250" (the source tests `maxC > 250 && minC > 245`);
alpha threshold kept as the `skipAlphaBelow` parameter (160 in the pipeline). -/
def discardAmendedC6 (skipAlphaBelow : ℕ) (px : Rgba) : Prop :=
  px.a < skipAlphaBelow ∨
  (250 < max px.r (max px.g px.b) ∧ 245 < min px.r (min px.g px.b)) ∨
  (px.r < 10 ∧ px.g < 10 ∧ px.b < 10)

instance (s : ℕ) (px : Rgba) : Decidable (discardAmendedC6 s px) := by
  unfold discardAmendedC6; infer_instance

/-- The coordinates visited by the sampling grid walk, in visit order
(row-major, both axes stepped by the stride). -/
def visitedCoords (width height stride : ℕ) : List (ℕ × ℕ) :=
  ((List.range height).filter fun y => y % stride = 0).flatMap fun y =>
    ((List.range width).filter fun x => x % stride = 0).map fun x => (x, y)

/-- The fate of one visited pixel as worded by (amended) claim C6: discarded,
or kept as its RGB triple. -/
def sampleSpecAt (data : List ℕ) (width skipAlphaBelow : ℕ) (c : ℕ × ℕ) : Option Rgb :=
  let px := pixelAt data width c.1 c.2
  if discardAmendedC6 skipAlphaBelow px then none else some (px.r, px.g, px.b)

/-- Sampling as worded by (amended) claim C6: every visited pixel is kept,
as its RGB triple, unless the discard condition holds. -/
def samplePixelsSpec (data : List ℕ) (width height stride skipAlphaBelow : ℕ) : List Rgb :=
  (visitedCoords width height (max 1 stride)).filterMap
    (sampleSpecAt data width skipAlphaBelow)

/-- The sixteen uppercase hexadecimal digit characters (claim C10). -/
def hexDigitsUpper : List Char :=
  ['0', '1', '2', '3', '4', '5', '6', '7', '8', '9', 'A', 'B', 'C', 'D', 'E', 'F']

/-- Claim C10's well-formedness: an uppercase `#RRGGBB` string. -/
def isHexColor (s : String) : Prop :=
  s.length = 7 ∧ s.data.head? = some '#' ∧ ∀ c ∈ s.data.tail, c ∈ hexDigitsUpper

/-- The two-character uppercase hexadecimal encoding of a byte (claim C10's
"two-digit uppercase hexadecimal encoding" of a channel already clamped
to `[0, 255]`). -/
def hexByte (n : ℕ) : List Char :=
  [(Nat.digitChar (n / 16)).toUpper, (Nat.digitChar (n % 16)).toUpper]

/-! ## The CIEDE2000 metric over `ℝ`

`deltaE00` (ThemeContext.tsx:478-513) and its helpers `hpF`, `dhpF`, `hpAvg`,
`toRad` (ThemeContext.tsx:515-535), embedded over the real numbers: each local
constant of the JavaScript function becomes a definition with the same name
and the same formula.  `Math.hypot` is `√(x² + y²)`, `Math.atan2(y, x)` is the
argument of the complex number `x + y·i` (range `(-π, π]`, 0 at the origin,
matching JavaScript on mathematical reals), and `Math.pow(x, n)` for the
natural exponents 2 and 7 on nonnegative bases is `x ^ n`. -/

namespace DE

/-- A Lab triple over `ℝ` for the metric-sanity claim. -/
structure RLab where
  L : ℝ
  a : ℝ
  b : ℝ

/-- `Math.hypot(x, y)`. -/
noncomputable def hypot (x y : ℝ) : ℝ := Real.sqrt (x ^ 2 + y ^ 2)

/-- `Math.atan2(y, x)`. -/
noncomputable def atan2 (y x : ℝ) : ℝ := Complex.arg ⟨x, y⟩

/-- `toRad` (ThemeContext.tsx:533-535). -/
noncomputable def toRad (deg : ℝ) : ℝ := deg * Real.pi / 180

/-- `hpF` (ThemeContext.tsx:515-518): hue angle in degrees, shifted into `[0, 360)`. -/
noncomputable def hpF (b ap : ℝ) : ℝ :=
  let h := atan2 b ap * 180 / Real.pi
  if 0 ≤ h then h else h + 360

/-- `dhpF` (ThemeContext.tsx:520-526): hue difference with sequential ±360°
branch corrections, and 0 when either chroma vanishes. -/
noncomputable def dhpF (h1p h2p C1p C2p : ℝ) : ℝ :=
  if C1p * C2p = 0 then 0
  else
    let dh := h2p - h1p
    let dh1 := if 180 < dh then dh - 360 else dh
    if dh1 < -180 then dh1 + 360 else dh1

/-- `hpAvg` (ThemeContext.tsx:528-531). -/
noncomputable def hpAvg (h1p h2p : ℝ) : ℝ :=
  if 180 < |h1p - h2p| then (h1p + h2p + 360) / 2 else (h1p + h2p) / 2

/-- `avgLp = (L1 + L2) / 2`. -/
noncomputable def avgLp (p q : RLab) : ℝ := (p.L + q.L) / 2

/-- `avgC = (C1 + C2) / 2` with `C1 = hypot(a1, b1)`, `C2 = hypot(a2, b2)`. -/
noncomputable def avgC (p q : RLab) : ℝ := (hypot p.a p.b + hypot q.a q.b) / 2

/-- `G = 0.5 * (1 - sqrt(avgC⁷ / (avgC⁷ + 25⁷)))`. -/
noncomputable def G (p q : RLab) : ℝ :=
  0.5 * (1 - Real.sqrt (avgC p q ^ 7 / (avgC p q ^ 7 + 25 ^ 7)))

/-- `a1p = (1 + G) * a1`. -/
noncomputable def a1p (p q : RLab) : ℝ := (1 + G p q) * p.a

/-- `a2p = (1 + G) * a2`. -/
noncomputable def a2p (p q : RLab) : ℝ := (1 + G p q) * q.a

/-- `C1p = hypot(a1p, b1)`. -/
noncomputable def C1p (p q : RLab) : ℝ := hypot (a1p p q) p.b

/-- `C2p = hypot(a2p, b2)`. -/
noncomputable def C2p (p q : RLab) : ℝ := hypot (a2p p q) q.b

/-- `avgCp = (C1p + C2p) / 2`. -/
noncomputable def avgCp (p q : RLab) : ℝ := (C1p p q + C2p p q) / 2

/-- `h1p = hpF(b1, a1p)`. -/
noncomputable def h1p (p q : RLab) : ℝ := hpF p.b (a1p p q)

/-- `h2p = hpF(b2, a2p)`. -/
noncomputable def h2p (p q : RLab) : ℝ := hpF q.b (a2p p q)

/-- `avgHp = hpAvg(h1p, h2p)`. -/
noncomputable def avgHp (p q : RLab) : ℝ := hpAvg (h1p p q) (h2p p q)

/-- The `T` polynomial (ThemeContext.tsx:494). -/
noncomputable def T (p q : RLab) : ℝ :=
  1 - 0.17 * Real.cos (toRad (avgHp p q - 30)) + 0.24 * Real.cos (toRad (2 * avgHp p q)) +
    0.32 * Real.cos (toRad (3 * avgHp p q + 6)) - 0.20 * Real.cos (toRad (4 * avgHp p q - 63))

/-- `dLp = L2 - L1`. -/
noncomputable def dLp (p q : RLab) : ℝ := q.L - p.L

/-- `dCp = C2p - C1p`. -/
noncomputable def dCp (p q : RLab) : ℝ := C2p p q - C1p p q

/-- `dhp = dhpF(h1p, h2p, C1p, C2p)`. -/
noncomputable def dhp (p q : RLab) : ℝ := dhpF (h1p p q) (h2p p q) (C1p p q) (C2p p q)

/-- `dHp = 2 * sqrt(C1p * C2p) * sin(toRad(dhp / 2))`. -/
noncomputable def dHp (p q : RLab) : ℝ :=
  2 * Real.sqrt (C1p p q * C2p p q) * Real.sin (toRad (dhp p q / 2))

/-- `Sl` (ThemeContext.tsx:499). -/
noncomputable def Sl (p q : RLab) : ℝ :=
  1 + 0.015 * (avgLp p q - 50) ^ 2 / Real.sqrt (20 + (avgLp p q - 50) ^ 2)

/-- `Sc = 1 + 0.045 * avgCp`. -/
noncomputable def Sc (p q : RLab) : ℝ := 1 + 0.045 * avgCp p q

/-- `Sh = 1 + 0.015 * avgCp * T`. -/
noncomputable def Sh (p q : RLab) : ℝ := 1 + 0.015 * avgCp p q * T p q

/-- `dTheta = 30 * exp(-(((avgHp - 275) / 25)²))`. -/
noncomputable def dTheta (p q : RLab) : ℝ :=
  30 * Real.exp (-(((avgHp p q - 275) / 25) ^ 2))

/-- `Rc = 2 * sqrt(avgCp⁷ / (avgCp⁷ + 25⁷))`. -/
noncomputable def Rc (p q : RLab) : ℝ :=
  2 * Real.sqrt (avgCp p q ^ 7 / (avgCp p q ^ 7 + 25 ^ 7))

/-- `Rt = -Rc * sin(toRad(2 * dTheta))`. -/
noncomputable def Rt (p q : RLab) : ℝ := -Rc p q * Real.sin (toRad (2 * dTheta p q))

/-- `Kl = Kc = Kh = 1` (ThemeContext.tsx:505). -/
def Kl : ℝ := 1

/-- See `Kl`. -/
def Kc : ℝ := 1

/-- See `Kl`. -/
def Kh : ℝ := 1

/-- `deltaE00` (ThemeContext.tsx:506-512). -/
noncomputable def deltaE00 (p q : RLab) : ℝ :=
  Real.sqrt ((dLp p q / (Sl p q * Kl)) ^ 2 + (dCp p q / (Sc p q * Kc)) ^ 2 +
    (dHp p q / (Sh p q * Kh)) ^ 2 +
    Rt p q * (dCp p q / (Sc p q * Kc)) * (dHp p q / (Sh p q * Kh)))

end DE

end Hexy

/-! # Theorems -/

namespace Hexy

namespace DE

/-- Elementwise swap: `a1p` with swapped arguments is `a2p`. -/
theorem a1p_swap (p q : RLab) : a1p q p = a2p p q := by
  simp only [a1p, a2p, G, avgC]
  ring_nf

/-- Elementwise swap: `a2p` with swapped arguments is `a1p`. -/
theorem a2p_swap (p q : RLab) : a2p q p = a1p p q := by
  simp only [a1p, a2p, G, avgC]
  ring_nf

/-- `C1p` with swapped arguments is `C2p`. -/
theorem C1p_swap (p q : RLab) : C1p q p = C2p p q := by
  simp only [C1p, C2p, a1p_swap]

/-- `C2p` with swapped arguments is `C1p`. -/
theorem C2p_swap (p q : RLab) : C2p q p = C1p p q := by
  simp only [C1p, C2p, a2p_swap]

/-- `avgCp` is symmetric. -/
theorem avgCp_comm (p q : RLab) : avgCp q p = avgCp p q := by
  unfold avgCp
  rw [C1p_swap p q, C2p_swap p q]
  ring

/-- `h1p` with swapped arguments is `h2p`. -/
theorem h1p_swap (p q : RLab) : h1p q p = h2p p q := by
  simp only [h1p, h2p, a1p_swap]

/-- `h2p` with swapped arguments is `h1p`. -/
theorem h2p_swap (p q : RLab) : h2p q p = h1p p q := by
  simp only [h1p, h2p, a2p_swap]

/-- `hpAvg` is symmetric in its two hue angles. -/
theorem hpAvg_comm (x y : ℝ) : hpAvg y x = hpAvg x y := by
  simp only [hpAvg, abs_sub_comm y x]
  split_ifs <;> ring

/-- `avgHp` is symmetric. -/
theorem avgHp_comm (p q : RLab) : avgHp q p = avgHp p q := by
  unfold avgHp
  rw [h1p_swap p q, h2p_swap p q]
  exact hpAvg_comm _ _

/-- `avgLp` is symmetric. -/
theorem avgLp_comm (p q : RLab) : avgLp q p = avgLp p q := by
  simp only [avgLp]; ring

/-- The `T` polynomial is symmetric. -/
theorem T_comm (p q : RLab) : T q p = T p q := by
  simp only [T, avgHp_comm]

/-- `dLp` is antisymmetric. -/
theorem dLp_swap (p q : RLab) : dLp q p = -dLp p q := by
  simp only [dLp]; ring

/-- `dCp` is antisymmetric. -/
theorem dCp_swap (p q : RLab) : dCp q p = -dCp p q := by
  unfold dCp
  rw [C1p_swap p q, C2p_swap p q]
  ring

/-- `dhpF` is antisymmetric under swapping both hue angles and both chromas. -/
theorem dhpF_antisymm (x y c d : ℝ) : dhpF y x d c = -dhpF x y c d := by
  simp only [dhpF]
  rw [mul_comm d c]
  split_ifs <;> linarith

/-- `dhp` is antisymmetric. -/
theorem dhp_swap (p q : RLab) : dhp q p = -dhp p q := by
  unfold dhp
  rw [h1p_swap p q, h2p_swap p q, C1p_swap p q, C2p_swap p q]
  exact dhpF_antisymm _ _ _ _

/-- `dHp` is antisymmetric. -/
theorem dHp_swap (p q : RLab) : dHp q p = -dHp p q := by
  unfold dHp toRad
  rw [C1p_swap p q, C2p_swap p q, dhp_swap p q, mul_comm (C2p p q) (C1p p q),
    neg_div, neg_mul, neg_div, Real.sin_neg]
  ring

/-- `Sl` is symmetric. -/
theorem Sl_comm (p q : RLab) : Sl q p = Sl p q := by
  simp only [Sl, avgLp_comm]

/-- `Sc` is symmetric. -/
theorem Sc_comm (p q : RLab) : Sc q p = Sc p q := by
  simp only [Sc, avgCp_comm]

/-- `Sh` is symmetric. -/
theorem Sh_comm (p q : RLab) : Sh q p = Sh p q := by
  simp only [Sh, avgCp_comm, T_comm]

/-- `dTheta` is symmetric. -/
theorem dTheta_comm (p q : RLab) : dTheta q p = dTheta p q := by
  simp only [dTheta, avgHp_comm]

/-- `Rc` is symmetric. -/
theorem Rc_comm (p q : RLab) : Rc q p = Rc p q := by
  simp only [Rc, avgCp_comm]

/-- `Rt` is symmetric. -/
theorem Rt_comm (p q : RLab) : Rt q p = Rt p q := by
  simp only [Rt, Rc_comm, dTheta_comm]

/-- `dLp` vanishes on the diagonal. -/
theorem dLp_self (p : RLab) : dLp p p = 0 := by
  simp only [dLp, sub_self]

/-- `dCp` vanishes on the diagonal. -/
theorem dCp_self (p : RLab) : dCp p p = 0 := by
  simp only [dCp, C1p, C2p, a1p, a2p, sub_self]

/-- `a2p` agrees with `a1p` on the diagonal. -/
theorem a2p_self (p : RLab) : a2p p p = a1p p p := by
  simp only [a1p, a2p]

/-- `dhp` vanishes on the diagonal. -/
theorem dhp_self (p : RLab) : dhp p p = 0 := by
  have h2 : h2p p p = h1p p p := by simp only [h1p, h2p, a2p_self]
  simp only [dhp, h2, dhpF, sub_self]
  split_ifs <;> norm_num at *

/-- `dHp` vanishes on the diagonal. -/
theorem dHp_self (p : RLab) : dHp p p = 0 := by
  simp [dHp, dhp_self, toRad]

end DE

/-- C7: the embedded CIEDE2000 metric satisfies ΔE00(p, p) = 0 for every Lab
triple p, and is symmetric: ΔE00(p, q) = ΔE00(q, p) for all Lab triples p, q. -/
theorem deltaE00_metric_sanity :
    (∀ p : DE.RLab, DE.deltaE00 p p = 0) ∧
    (∀ p q : DE.RLab, DE.deltaE00 p q = DE.deltaE00 q p) := by
  constructor
  · intro p
    simp [DE.deltaE00, DE.dLp_self, DE.dCp_self, DE.dHp_self]
  · intro p q
    simp only [DE.deltaE00, DE.dLp_swap p q, DE.dCp_swap p q, DE.dHp_swap p q,
      DE.Sl_comm p q, DE.Sc_comm p q, DE.Sh_comm p q, DE.Rt_comm p q]
    congr 1
    ring

end Hexy

namespace Hexy

/-! ## Characterisation of `mostFrequentRgb`

The JavaScript `Map` iteration and strict-`>` selection return a colour of
maximal multiplicity; these lemmas establish membership and maximality. -/

/-- `bumpKey` keeps the key list unchanged when the key is already present and
appends it otherwise. -/
theorem map_fst_bumpKey (acc : List (Rgb × ℕ)) (r : Rgb) :
    (bumpKey acc r).map Prod.fst =
      if acc.any (fun e => decide (e.1 = r)) then acc.map Prod.fst
      else acc.map Prod.fst ++ [r] := by
  unfold bumpKey
  split_ifs with h
  · rw [List.map_map]
    refine List.map_congr_left fun e _ => ?_
    by_cases he : e.1 = r <;> simp [he]
  · simp

/-- `bumpKey` preserves distinctness of the keys. -/
theorem nodup_keys_bumpKey (acc : List (Rgb × ℕ)) (r : Rgb)
    (h : (acc.map Prod.fst).Nodup) : ((bumpKey acc r).map Prod.fst).Nodup := by
  rw [map_fst_bumpKey]
  split_ifs with hany
  · exact h
  · have hr : r ∉ acc.map Prod.fst := by
      simp only [List.any_eq_true, decide_eq_true_eq] at hany
      simp only [List.mem_map]
      rintro ⟨e, he, rfl⟩
      exact hany ⟨e, he, rfl⟩
    rw [List.nodup_append]
    exact ⟨h, List.nodup_singleton r, List.disjoint_singleton.mpr hr⟩

/-- `assocCount` over an empty list. -/
theorem assocCount_nil (q : Rgb) : assocCount [] q = 0 := rfl

/-- `assocCount` over a cons. -/
theorem assocCount_cons (e : Rgb × ℕ) (acc : List (Rgb × ℕ)) (q : Rgb) :
    assocCount (e :: acc) q = (if e.1 = q then e.2 else 0) + assocCount acc q := by
  unfold assocCount
  rw [List.filter_cons]
  by_cases h : e.1 = q <;> simp [h]

/-- `assocCount` over an append. -/
theorem assocCount_append (l1 l2 : List (Rgb × ℕ)) (q : Rgb) :
    assocCount (l1 ++ l2) q = assocCount l1 q + assocCount l2 q := by
  unfold assocCount
  rw [List.filter_append, List.map_append, List.sum_append]

/-- A key absent from the key list counts zero. -/
theorem assocCount_eq_zero (acc : List (Rgb × ℕ)) (q : Rgb)
    (h : q ∉ acc.map Prod.fst) : assocCount acc q = 0 := by
  unfold assocCount
  have : acc.filter (fun e => decide (e.1 = q)) = [] := by
    rw [List.filter_eq_nil_iff]
    intro e he
    simp only [decide_eq_true_eq]
    intro hq
    exact h (List.mem_map.mpr ⟨e, he, hq⟩)
  rw [this]
  rfl

/-- The effect of the map branch of `bumpKey` on `assocCount`: each entry with
the bumped key gains one. -/
theorem assocCount_map_bump (acc : List (Rgb × ℕ)) (r q : Rgb) :
    assocCount (acc.map fun e => if e.1 = r then (e.1, e.2 + 1) else e) q =
      assocCount acc q +
        (if q = r then acc.countP (fun e => decide (e.1 = r)) else 0) := by
  induction acc with
  | nil => simp [assocCount_nil]
  | cons e rest ih =>
    rw [List.map_cons, assocCount_cons, assocCount_cons, List.countP_cons, ih]
    by_cases h1 : e.1 = r
    · by_cases h2 : q = r
      · have he : e.1 = q := by rw [h1, h2]
        simp only [if_pos h1, if_pos he, if_pos h2, decide_eq_true_eq]
        omega
      · have he : ¬e.1 = q := fun hq => h2 (hq.symm.trans h1)
        simp only [if_pos h1, if_neg he, if_neg h2, decide_eq_true_eq]
        omega
    · by_cases h2 : q = r
      · have he : ¬e.1 = q := fun hq => h1 (hq.trans h2)
        simp only [if_neg h1, if_neg he, if_pos h2, decide_eq_true_eq]
        omega
      · simp only [if_neg h1, if_neg h2, decide_eq_true_eq]
        omega

/-- With distinct keys, a present key has exactly one entry. -/
theorem countP_key_eq_one (acc : List (Rgb × ℕ)) (r : Rgb)
    (hn : (acc.map Prod.fst).Nodup)
    (ha : acc.any (fun e => decide (e.1 = r)) = true) :
    acc.countP (fun e => decide (e.1 = r)) = 1 := by
  induction acc with
  | nil => simp at ha
  | cons e rest ih =>
    rw [List.map_cons, List.nodup_cons] at hn
    rw [List.countP_cons]
    by_cases h1 : e.1 = r
    · have hz : rest.countP (fun e => decide (e.1 = r)) = 0 := by
        rw [List.countP_eq_zero]
        intro a ha'
        simp only [decide_eq_true_eq]
        intro har
        exact hn.1 (List.mem_map.mpr ⟨a, ha', har.trans h1.symm⟩)
      simp [hz, h1]
    · have ha' : rest.any (fun e => decide (e.1 = r)) = true := by
        rcases List.any_eq_true.mp ha with ⟨x, hx, hxr⟩
        rcases List.mem_cons.mp hx with rfl | hx'
        · exact absurd (of_decide_eq_true hxr) h1
        · exact List.any_eq_true.mpr ⟨x, hx', hxr⟩
      simp [ih hn.2 ha', h1]

/-- The effect of `bumpKey` on `assocCount`: the bumped key gains one. -/
theorem assocCount_bumpKey (acc : List (Rgb × ℕ)) (r q : Rgb)
    (hn : (acc.map Prod.fst).Nodup) :
    assocCount (bumpKey acc r) q = assocCount acc q + if q = r then 1 else 0 := by
  unfold bumpKey
  by_cases ha : acc.any (fun e => decide (e.1 = r)) = true
  · rw [if_pos ha, assocCount_map_bump, countP_key_eq_one acc r hn ha]
  · rw [if_neg ha, assocCount_append, assocCount_cons, assocCount_nil]
    by_cases h2 : q = r
    · rw [if_pos h2.symm, if_pos h2]
    · rw [if_neg (fun h => h2 h.symm), if_neg h2]

/-- `foldl bumpKey` preserves distinctness of the keys. -/
theorem nodup_keys_foldl (l : List Rgb) (acc : List (Rgb × ℕ))
    (h : (acc.map Prod.fst).Nodup) :
    ((l.foldl bumpKey acc).map Prod.fst).Nodup := by
  induction l generalizing acc with
  | nil => exact h
  | cons x rest ih => exact ih _ (nodup_keys_bumpKey acc x h)

/-- `freqList` has distinct keys. -/
theorem nodup_keys_freqList (l : List Rgb) : ((freqList l).map Prod.fst).Nodup :=
  nodup_keys_foldl l [] (by simp)

/-- `foldl bumpKey` adds the multiset of processed pixels to the counts. -/
theorem assocCount_foldl (l : List Rgb) (acc : List (Rgb × ℕ))
    (h : (acc.map Prod.fst).Nodup) (q : Rgb) :
    assocCount (l.foldl bumpKey acc) q = assocCount acc q + l.count q := by
  induction l generalizing acc with
  | nil => simp
  | cons x rest ih =>
    rw [List.foldl_cons, ih _ (nodup_keys_bumpKey acc x h),
      assocCount_bumpKey acc x q h, List.count_cons]
    by_cases hqx : q = x
    · subst hqx
      simp only [if_pos rfl, beq_self_eq_true, if_true]
      omega
    · rw [if_neg hqx, if_neg (by simp [beq_iff_eq]; exact fun h => hqx h.symm)]
      omega

/-- The frequency map records exactly the multiplicities of the pixel list. -/
theorem assocCount_freqList (l : List Rgb) (q : Rgb) :
    assocCount (freqList l) q = l.count q := by
  unfold freqList
  rw [assocCount_foldl l [] (by simp) q, assocCount_nil, Nat.zero_add]

/-- A positively counted key has an entry. -/
theorem mem_of_assocCount_pos (acc : List (Rgb × ℕ)) (q : Rgb)
    (h : 0 < assocCount acc q) : ∃ c, (q, c) ∈ acc := by
  induction acc with
  | nil => simp [assocCount_nil] at h
  | cons e rest ih =>
    rw [assocCount_cons] at h
    by_cases he : e.1 = q
    · exact ⟨e.2, by rw [List.mem_cons]; left; rw [← he]⟩
    · rw [if_neg he, Nat.zero_add] at h
      rcases ih h with ⟨c, hc⟩
      exact ⟨c, List.mem_cons_of_mem e hc⟩

/-- With distinct keys, an entry's value is its key's count. -/
theorem assocCount_of_mem (acc : List (Rgb × ℕ)) (q : Rgb) (c : ℕ)
    (hn : (acc.map Prod.fst).Nodup) (hm : (q, c) ∈ acc) : assocCount acc q = c := by
  induction acc with
  | nil => simp at hm
  | cons e rest ih =>
    rw [List.map_cons, List.nodup_cons] at hn
    rw [assocCount_cons]
    rcases List.mem_cons.mp hm with rfl | hm'
    · rw [if_pos rfl]
      have : assocCount rest q = 0 := by
        apply assocCount_eq_zero
        exact hn.1
      rw [this]
      simp
    · by_cases he : e.1 = q
      · exfalso
        apply hn.1
        rw [he]
        exact List.mem_map.mpr ⟨(q, c), hm', rfl⟩
      · rw [if_neg he, Nat.zero_add]
        exact ih hn.2 hm'

/-- Every key of the frequency map occurs among the pixels. -/
theorem key_mem_of_mem_foldl (l : List Rgb) (acc : List (Rgb × ℕ)) (e : Rgb × ℕ)
    (hm : e ∈ l.foldl bumpKey acc) : (∃ c, (e.1, c) ∈ acc) ∨ e.1 ∈ l := by
  induction l generalizing acc with
  | nil => exact Or.inl ⟨e.2, by simpa using hm⟩
  | cons x rest ih =>
    rw [List.foldl_cons] at hm
    rcases ih (bumpKey acc x) hm with ⟨c, hc⟩ | hl
    · unfold bumpKey at hc
      split_ifs at hc with hany
      · rcases List.mem_map.mp hc with ⟨e', he', hee⟩
        have h1 : e'.1 = e.1 := by
          by_cases hx : e'.1 = x
          · rw [if_pos hx] at hee
            exact (Prod.ext_iff.mp hee).1
          · rw [if_neg hx] at hee
            exact (Prod.ext_iff.mp hee).1
        refine Or.inl ⟨e'.2, ?_⟩
        rw [← h1]
        exact he'
      · rcases List.mem_append.mp hc with hc' | hc'
        · exact Or.inl ⟨c, hc'⟩
        · have hx : e.1 = x := (Prod.ext_iff.mp (List.mem_singleton.mp hc')).1
          exact Or.inr (hx ▸ List.mem_cons_self x rest)
    · exact Or.inr (List.mem_cons_of_mem x hl)

/-- Every key of `freqList l` is a pixel of `l`. -/
theorem key_mem_of_mem_freqList (l : List Rgb) (e : Rgb × ℕ)
    (hm : e ∈ freqList l) : e.1 ∈ l := by
  rcases key_mem_of_mem_foldl l [] e hm with ⟨c, hc⟩ | h
  · simp at hc
  · exact h

/-- An entry of `freqList l` records its key's multiplicity in `l`. -/
theorem val_eq_count_of_mem_freqList (l : List Rgb) (q : Rgb) (c : ℕ)
    (hm : (q, c) ∈ freqList l) : c = l.count q := by
  rw [← assocCount_freqList l q]
  exact (assocCount_of_mem _ _ _ (nodup_keys_freqList l) hm).symm

/-- Every pixel has the entry recording its multiplicity. -/
theorem count_entry_mem_freqList (l : List Rgb) (q : Rgb) (hq : q ∈ l) :
    (q, l.count q) ∈ freqList l := by
  have hpos : 0 < assocCount (freqList l) q := by
    rw [assocCount_freqList]
    exact List.count_pos_iff.mpr hq
  rcases mem_of_assocCount_pos _ _ hpos with ⟨c, hc⟩
  have := val_eq_count_of_mem_freqList l q c hc
  rwa [this] at hc

/-- The selection fold never decreases the best count. -/
theorem le_foldl_pickStep (l : List (Rgb × ℕ)) (b : Rgb × ℤ) :
    b.2 ≤ (l.foldl pickStep b).2 := by
  induction l generalizing b with
  | nil => exact le_refl _
  | cons e rest ih =>
    rw [List.foldl_cons]
    refine le_trans ?_ (ih (pickStep b e))
    unfold pickStep
    split_ifs with h
    · exact le_of_lt h
    · exact le_refl _

/-- The selection fold dominates every processed count. -/
theorem foldl_pickStep_ge (l : List (Rgb × ℕ)) (b : Rgb × ℤ) (e : Rgb × ℕ)
    (he : e ∈ l) : (e.2 : ℤ) ≤ (l.foldl pickStep b).2 := by
  induction l generalizing b with
  | nil => simp at he
  | cons x rest ih =>
    rw [List.foldl_cons]
    rcases List.mem_cons.mp he with rfl | he'
    · refine le_trans ?_ (le_foldl_pickStep rest (pickStep b e))
      unfold pickStep
      split_ifs with h
      · exact le_refl _
      · exact le_of_not_lt h
    · exact ih (pickStep b x) he'

/-- The selection fold returns the initial pair or (the cast of) a processed entry. -/
theorem foldl_pickStep_mem (l : List (Rgb × ℕ)) (b : Rgb × ℤ) :
    l.foldl pickStep b = b ∨ ∃ e ∈ l, l.foldl pickStep b = (e.1, (e.2 : ℤ)) := by
  induction l generalizing b with
  | nil => exact Or.inl rfl
  | cons x rest ih =>
    rw [List.foldl_cons]
    rcases ih (pickStep b x) with h | ⟨e, he, hee⟩
    · by_cases hlt : b.2 < (x.2 : ℤ)
      · refine Or.inr ⟨x, List.mem_cons_self x rest, ?_⟩
        rw [h]
        unfold pickStep
        rw [if_pos hlt]
      · refine Or.inl ?_
        rw [h]
        unfold pickStep
        rw [if_neg hlt]
    · exact Or.inr ⟨e, List.mem_cons_of_mem x he, hee⟩

/-- `mostFrequentRgb` of a non-empty list is one of its members. -/
theorem mostFrequentRgb_mem (pixels : List Rgb) (h : pixels ≠ []) :
    mostFrequentRgb pixels ∈ pixels := by
  unfold mostFrequentRgb pickMax
  rw [if_neg h]
  rcases List.exists_mem_of_ne_nil pixels h with ⟨x, hx⟩
  have hentry := count_entry_mem_freqList pixels x hx
  have hge : (pixels.count x : ℤ) ≤
      (List.foldl pickStep ((0, 0, 0), -1) (freqList pixels)).2 :=
    foldl_pickStep_ge _ _ _ hentry
  have hcount : 0 < pixels.count x := List.count_pos_iff.mpr hx
  rcases foldl_pickStep_mem (freqList pixels) ((0, 0, 0), -1) with heq | ⟨e, he, hee⟩
  · exfalso
    rw [heq] at hge
    have h2 : ((((0, 0, 0) : Rgb), (-1 : ℤ))).2 = -1 := rfl
    rw [h2] at hge
    omega
  · rw [hee]
    exact key_mem_of_mem_freqList pixels e he

/-- No colour occurs more often than `mostFrequentRgb`. -/
theorem count_le_count_mostFrequentRgb (pixels : List Rgb) (q : Rgb) :
    pixels.count q ≤ pixels.count (mostFrequentRgb pixels) := by
  by_cases h : pixels = []
  · subst h
    simp
  · by_cases hq : q ∈ pixels
    · unfold mostFrequentRgb pickMax
      rw [if_neg h]
      have hentry := count_entry_mem_freqList pixels q hq
      have hge : (pixels.count q : ℤ) ≤
          (List.foldl pickStep ((0, 0, 0), -1) (freqList pixels)).2 :=
        foldl_pickStep_ge _ _ _ hentry
      rcases foldl_pickStep_mem (freqList pixels) ((0, 0, 0), -1) with heq | ⟨e, he, hee⟩
      · exfalso
        rw [heq] at hge
        have h2 : ((((0, 0, 0) : Rgb), (-1 : ℤ))).2 = -1 := rfl
        rw [h2] at hge
        have : 0 < pixels.count q := List.count_pos_iff.mpr hq
        omega
      · rw [hee] at hge
        have h2 : ((e.1, (e.2 : ℤ))).2 = (e.2 : ℤ) := rfl
        rw [h2] at hge
        have he2 : e.2 = pixels.count e.1 := val_eq_count_of_mem_freqList pixels e.1 e.2 he
        rw [hee]
        have h1 : ((e.1, (e.2 : ℤ))).1 = e.1 := rfl
        rw [h1]
        rw [he2] at hge
        exact_mod_cast hge
    · rw [List.count_eq_zero.mpr hq]
      exact Nat.zero_le _

/-! ## The sampling walk as a filter over the visited grid (claim C6) -/

/-- The inner loop body keeps or drops exactly as the (amended) per-pixel
discard condition dictates. -/
theorem samplePixelsBody_eq (data : List ℕ) (width skipAlphaBelow y x : ℕ)
    (acc : List Rgb) :
    samplePixelsBody data width skipAlphaBelow y acc x =
      acc ++ (sampleSpecAt data width skipAlphaBelow (x, y)).toList := by
  unfold samplePixelsBody sampleSpecAt discardAmendedC6
  dsimp only
  by_cases h1 : (pixelAt data width x y).a < skipAlphaBelow
  · rw [if_pos h1, if_pos (Or.inl h1)]
    simp
  · rw [if_neg h1]
    by_cases h2 : 250 < max (pixelAt data width x y).r
        (max (pixelAt data width x y).g (pixelAt data width x y).b) ∧
        245 < min (pixelAt data width x y).r
        (min (pixelAt data width x y).g (pixelAt data width x y).b)
    · rw [if_pos h2, if_pos (Or.inr (Or.inl h2))]
      simp
    · rw [if_neg h2]
      by_cases h3 : max (pixelAt data width x y).r
          (max (pixelAt data width x y).g (pixelAt data width x y).b) < 10 ∧
          min (pixelAt data width x y).r
          (min (pixelAt data width x y).g (pixelAt data width x y).b) < 10
      · have h3' : (pixelAt data width x y).r < 10 ∧ (pixelAt data width x y).g < 10 ∧
            (pixelAt data width x y).b < 10 := by omega
        rw [if_pos h3, if_pos (Or.inr (Or.inr h3'))]
        simp
      · rw [if_neg h3, if_neg ?_]
        · simp
        · rintro (h | h | h)
          · exact h1 h
          · exact h2 h
          · exact h3 (by omega)

/-- A fold whose step appends the image of an option-valued function equals the
accumulator followed by the `filterMap`. -/
theorem foldl_append_toList {α β : Type} (f : α → Option β) (g : List β → α → List β)
    (hg : ∀ acc x, g acc x = acc ++ (f x).toList) (l : List α) (acc : List β) :
    l.foldl g acc = acc ++ l.filterMap f := by
  induction l generalizing acc with
  | nil => simp
  | cons x rest ih =>
    rw [List.foldl_cons, hg, ih, List.filterMap_cons]
    cases hfx : f x <;> simp [List.append_assoc]

/-- A fold whose step appends the image of a list-valued function equals the
accumulator followed by the `flatMap`. -/
theorem foldl_append_flat {α β : Type} (F : α → List β) (g : List β → α → List β)
    (hg : ∀ acc x, g acc x = acc ++ F x) (l : List α) (acc : List β) :
    l.foldl g acc = acc ++ l.flatMap F := by
  induction l generalizing acc with
  | nil => simp
  | cons x rest ih =>
    rw [List.foldl_cons, hg, ih, List.flatMap_cons, List.append_assoc]

/-- `filterMap` distributes over `flatMap`. -/
theorem filterMap_flatMap_eq {α β γ : Type} (l : List α) (g : α → List β)
    (f : β → Option γ) :
    (l.flatMap g).filterMap f = l.flatMap fun a => (g a).filterMap f := by
  induction l with
  | nil => simp
  | cons x rest ih => simp [List.flatMap_cons, List.filterMap_append, ih]

/-- C6 (amended): for every pixel buffer, the sampling walk keeps exactly the
visited pixels that are not discarded, where a visited pixel is discarded iff
its alpha is < 160 (the `skipAlphaBelow` argument), or its maximum channel is
> 250 with minimum channel > 245 (near-white), or all channels are < 10
(near-black); the claim's original wording "all channels > 250" is corrected
to "the maximum channel > 250". -/
theorem samplePixels_is_grid_filter (data : List ℕ)
    (width height stride skipAlphaBelow : ℕ) :
    samplePixels data width height stride skipAlphaBelow =
      samplePixelsSpec data width height stride skipAlphaBelow := by
  have hinner : ∀ (y : ℕ) (acc : List Rgb),
      ((List.range width).filter fun x => x % (max 1 stride) = 0).foldl
        (samplePixelsBody data width skipAlphaBelow y) acc =
        acc ++ ((List.range width).filter fun x => x % (max 1 stride) = 0).filterMap
          (fun x => sampleSpecAt data width skipAlphaBelow (x, y)) := by
    intro y acc
    exact foldl_append_toList _ _
      (fun a x => samplePixelsBody_eq data width skipAlphaBelow y x a) _ _
  have houter := foldl_append_flat
    (fun y => ((List.range width).filter fun x => x % (max 1 stride) = 0).filterMap
      (fun x => sampleSpecAt data width skipAlphaBelow (x, y)))
    (fun acc y => ((List.range width).filter fun x => x % (max 1 stride) = 0).foldl
      (samplePixelsBody data width skipAlphaBelow y) acc)
    (fun acc y => hinner y acc)
    ((List.range height).filter fun y => y % (max 1 stride) = 0) []
  simp only [samplePixels, samplePixelsSpec, visitedCoords]
  rw [houter, List.nil_append, filterMap_flatMap_eq]
  congr 1
  funext y
  rw [List.filterMap_map]
  rfl

/-- C6 as literally stated is false: on a 1×1 buffer holding the RGBA pixel
(251, 246, 246, 255), the (visited) pixel is discarded by the code — its
maximum channel 251 is > 250 and its minimum channel 246 is > 245 — yet the
claim's discard condition does not hold, since "all channels > 250" fails
(246 is not > 250), so the claim predicts the pixel is kept. -/
theorem claimC6_counterexample :
    samplePixels [251, 246, 246, 255] 1 1 2 160 = [] ∧
    (0, 0) ∈ visitedCoords 1 1 (max 1 2) ∧
    ¬claimDiscardC6 (pixelAt [251, 246, 246, 255] 1 0 0) := by
  refine ⟨by decide, by decide, ?_⟩
  unfold claimDiscardC6 pixelAt
  decide

/-- C8: for every pixel buffer, the background detector returns "no background"
whenever fewer than 20 border pixels qualify (alpha ≥ 200); with at least 20 it
classifies the border as uniform exactly when the fraction of qualifying border
pixels within ΔE00 ≤ 6 of the Lab arithmetic-mean centroid is ≥ 0.6, and in
that case returns the most frequent exact RGB triple among the qualifying
border pixels — a triple that occurs on the border (not the mean) and whose
multiplicity no other triple exceeds. -/
theorem detectBackground_spec (toLab : Rgb → Lab3) (d00 : Lab3 → Lab3 → ℚ)
    (data : List ℕ) (width height : ℕ) :
    ((borderPixels data width height).length < 20 →
      detectBackground toLab d00 data width height = none) ∧
    (20 ≤ (borderPixels data width height).length →
      (((((borderPixels data width height).map toLab).filter fun p =>
            decide (d00 p (labMean3 ((borderPixels data width height).map toLab)) ≤ 6)).length : ℚ) /
            ((borderPixels data width height).length : ℚ) < 0.6 →
          detectBackground toLab d00 data width height = none) ∧
        (0.6 ≤ (((((borderPixels data width height).map toLab).filter fun p =>
            decide (d00 p (labMean3 ((borderPixels data width height).map toLab)) ≤ 6)).length : ℚ) /
            ((borderPixels data width height).length : ℚ)) →
          detectBackground toLab d00 data width height =
            some (mostFrequentRgb (borderPixels data width height)) ∧
          mostFrequentRgb (borderPixels data width height) ∈ borderPixels data width height ∧
          ∀ q : Rgb, (borderPixels data width height).count q ≤
            (borderPixels data width height).count
              (mostFrequentRgb (borderPixels data width height)))) := by
  refine ⟨fun h20 => ?_, fun h20 => ⟨fun hlt => ?_, fun hge => ?_⟩⟩
  · simp only [detectBackground]
    rw [if_pos h20]
  · simp only [detectBackground, List.length_map]
    rw [if_neg (Nat.not_lt.mpr h20), if_neg (not_le.mpr hlt)]
  · have hne : borderPixels data width height ≠ [] := by
      intro h
      rw [h] at h20
      simp at h20
    have hout : detectBackground toLab d00 data width height =
        some (mostFrequentRgb (borderPixels data width height)) := by
      simp only [detectBackground, List.length_map]
      rw [if_neg (Nat.not_lt.mpr h20), if_pos hge]
    exact ⟨hout, mostFrequentRgb_mem _ hne, fun q => count_le_count_mostFrequentRgb _ q⟩

/-- Witness for `detectBackground_spec`: on a 6×6 buffer filled with the RGBA
pixel (7, 7, 7, 255) the border has 24 qualifying pixels, the uniform fraction
is 1, and the detector returns the (most frequent) border colour (7, 7, 7). -/
theorem detectBackground_spec_witness :
    detectBackground (fun _ => ((0 : ℚ), (0 : ℚ), (0 : ℚ))) (fun _ _ => 0)
        ((List.replicate 36 [7, 7, 7, 255]).flatten) 6 6 = some (7, 7, 7) ∧
      ((7, 7, 7) : Rgb) ∈ borderPixels ((List.replicate 36 [7, 7, 7, 255]).flatten) 6 6 := by
  have h := (detectBackground_spec (fun _ => ((0 : ℚ), (0 : ℚ), (0 : ℚ))) (fun _ _ => 0)
    ((List.replicate 36 [7, 7, 7, 255]).flatten) 6 6).2 (by with_unfolding_all decide)
  have h2 := h.2 (by with_unfolding_all decide)
  have hmf : mostFrequentRgb
      (borderPixels ((List.replicate 36 [7, 7, 7, 255]).flatten) 6 6) = (7, 7, 7) := by
    with_unfolding_all decide
  refine ⟨by rw [h2.1, hmf], ?_⟩
  rw [← hmf]
  exact h2.2.1

/-! ## Structure of assignment, merging, filtering and sorting -/

/-- The argmin accumulator stays below `n` when its inputs do. -/
theorem bestIndexAux_lt (n : ℕ) (ds : List ℚ) : ∀ (i best : ℕ) (bd : ℚ),
    best < n → i + ds.length ≤ n → bestIndexAux ds i best (some bd) < n := by
  induction ds with
  | nil => intro i best bd hb _; exact hb
  | cons d rest ih =>
    intro i best bd hb hi
    rw [List.length_cons] at hi
    unfold bestIndexAux
    split_ifs
    · exact ih (i + 1) i d (by omega) (by omega)
    · exact ih (i + 1) best bd hb (by omega)

/-- With a non-empty centroid list, the chosen index is in range. -/
theorem bestIndex_lt (d76 : Lab3 → Lab3 → ℚ) (lab : Lab3) (centroids : List Lab3)
    (h : centroids ≠ []) : bestIndex d76 lab centroids < centroids.length := by
  unfold bestIndex
  cases centroids with
  | nil => exact absurd rfl h
  | cons c rest =>
    rw [List.map_cons]
    rw [show bestIndexAux (d76 lab c :: rest.map (d76 lab)) 0 0 none =
      bestIndexAux (rest.map (d76 lab)) 1 0 (some (d76 lab c)) from rfl]
    apply bestIndexAux_lt
    · simp
    · simp
      omega

/-- Every point of an assigned cluster is one of the input points. -/
theorem assign_points_subset (d76 : Lab3 → Lab3 → ℚ) (labPoints : List LabPoint)
    (centroids : List Lab3) (cl : LabCluster)
    (hcl : cl ∈ assignPointsToCentroids d76 labPoints centroids) :
    ∀ p ∈ cl.points, p ∈ labPoints := by
  unfold assignPointsToCentroids at hcl
  rcases List.mem_filter.mp hcl with ⟨hmem, _⟩
  rcases List.mem_map.mp hmem with ⟨i, _, hi⟩
  intro p hp
  rw [← hi] at hp
  exact (List.mem_filter.mp hp).1

/-- Assigned clusters are non-empty. -/
theorem assign_all_nonempty (d76 : Lab3 → Lab3 → ℚ) (labPoints : List LabPoint)
    (centroids : List Lab3) (cl : LabCluster)
    (hcl : cl ∈ assignPointsToCentroids d76 labPoints centroids) : cl.points ≠ [] := by
  unfold assignPointsToCentroids at hcl
  rcases List.mem_filter.mp hcl with ⟨_, hlen⟩
  have := of_decide_eq_true hlen
  exact List.ne_nil_of_length_pos this

/-- At most one cluster per centroid survives. -/
theorem assign_length_le (d76 : Lab3 → Lab3 → ℚ) (labPoints : List LabPoint)
    (centroids : List Lab3) :
    (assignPointsToCentroids d76 labPoints centroids).length ≤ centroids.length := by
  unfold assignPointsToCentroids
  calc (List.filter _ (List.map _ (List.range centroids.length))).length
      ≤ (List.map _ (List.range centroids.length)).length := List.length_filter_le _ _
    _ = centroids.length := by rw [List.length_map, List.length_range]

/-- With points and centroids both non-empty, some cluster survives. -/
theorem assign_ne_nil (d76 : Lab3 → Lab3 → ℚ) (labPoints : List LabPoint)
    (centroids : List Lab3) (hp : labPoints ≠ []) (hc : centroids ≠ []) :
    assignPointsToCentroids d76 labPoints centroids ≠ [] := by
  rcases List.exists_mem_of_ne_nil labPoints hp with ⟨p0, hp0⟩
  have hi : bestIndex d76 p0.lab centroids < centroids.length :=
    bestIndex_lt d76 p0.lab centroids hc
  apply List.ne_nil_of_mem (a :=
    ({ centroid := centroids.getD (bestIndex d76 p0.lab centroids) (0, 0, 0)
       points := labPoints.filter fun p =>
         decide (bestIndex d76 p.lab centroids = bestIndex d76 p0.lab centroids) }
      : LabCluster))
  unfold assignPointsToCentroids
  rw [List.mem_filter]
  constructor
  · exact List.mem_map.mpr ⟨bestIndex d76 p0.lab centroids, List.mem_range.mpr hi, rfl⟩
  · have hp0f : p0 ∈ labPoints.filter fun p =>
        decide (bestIndex d76 p.lab centroids = bestIndex d76 p0.lab centroids) :=
      List.mem_filter.mpr ⟨hp0, by simp⟩
    have := List.length_pos_of_mem hp0f
    simpa using this

/-- `mergeInto` never yields the empty list. -/
theorem mergeInto_ne_nil (d00 : Lab3 → Lab3 → ℚ) (md : ℚ) (c : LabCluster)
    (ms : List LabCluster) : mergeInto d00 md c ms ≠ [] := by
  cases ms with
  | nil => simp [mergeInto]
  | cons m rest =>
    unfold mergeInto
    split_ifs <;> simp

/-- `mergeInto` adds at most one cluster. -/
theorem mergeInto_length_le (d00 : Lab3 → Lab3 → ℚ) (md : ℚ) (c : LabCluster)
    (ms : List LabCluster) : (mergeInto d00 md c ms).length ≤ ms.length + 1 := by
  induction ms with
  | nil => simp [mergeInto]
  | cons m rest ih =>
    unfold mergeInto
    split_ifs
    · simp
    · rw [List.length_cons, List.length_cons]
      omega

/-- Points after `mergeInto` come from the new cluster or the old ones. -/
theorem mergeInto_points_subset (d00 : Lab3 → Lab3 → ℚ) (md : ℚ) (c : LabCluster)
    (ms : List LabCluster) (m : LabCluster) (hm : m ∈ mergeInto d00 md c ms) :
    ∀ p ∈ m.points, p ∈ c.points ∨ ∃ m' ∈ ms, p ∈ m'.points := by
  induction ms with
  | nil =>
    simp only [mergeInto, List.mem_singleton] at hm
    intro p hp
    rw [hm] at hp
    exact Or.inl hp
  | cons m0 rest ih =>
    unfold mergeInto at hm
    split_ifs at hm with hd
    · rcases List.mem_cons.mp hm with rfl | hm'
      · intro p hp
        simp only at hp
        rcases List.mem_append.mp hp with h | h
        · exact Or.inr ⟨m0, List.mem_cons_self m0 rest, h⟩
        · exact Or.inl h
      · intro p hp
        exact Or.inr ⟨m, List.mem_cons_of_mem m0 hm', hp⟩
    · rcases List.mem_cons.mp hm with rfl | hm'
      · intro p hp
        exact Or.inr ⟨m, List.mem_cons_self m rest, hp⟩
      · intro p hp
        rcases ih hm' p hp with h | ⟨m', hm'', hp'⟩
        · exact Or.inl h
        · exact Or.inr ⟨m', List.mem_cons_of_mem m0 hm'', hp'⟩

/-- `mergeInto` keeps clusters non-empty. -/
theorem mergeInto_all_nonempty (d00 : Lab3 → Lab3 → ℚ) (md : ℚ) (c : LabCluster)
    (ms : List LabCluster) (hc : c.points ≠ []) (hms : ∀ m ∈ ms, m.points ≠ [])
    (m : LabCluster) (hm : m ∈ mergeInto d00 md c ms) : m.points ≠ [] := by
  induction ms with
  | nil =>
    simp only [mergeInto, List.mem_singleton] at hm
    rw [hm]
    exact hc
  | cons m0 rest ih =>
    unfold mergeInto at hm
    split_ifs at hm with hd
    · rcases List.mem_cons.mp hm with rfl | hm'
      · simp only
        intro happ
        rcases List.append_eq_nil.mp happ with ⟨_, h2⟩
        exact hc h2
      · exact hms m (List.mem_cons_of_mem m0 hm')
    · rcases List.mem_cons.mp hm with rfl | hm'
      · exact hms m (List.mem_cons_self m rest)
      · exact ih (fun x hx => hms x (List.mem_cons_of_mem m0 hx)) hm'

/-- `mergeInto` preserves the total point count. -/
theorem mergeInto_sum (d00 : Lab3 → Lab3 → ℚ) (md : ℚ) (c : LabCluster)
    (ms : List LabCluster) :
    ((mergeInto d00 md c ms).map fun m => m.points.length).sum =
      c.points.length + ((ms.map fun m => m.points.length)).sum := by
  induction ms with
  | nil => simp [mergeInto]
  | cons m0 rest ih =>
    unfold mergeInto
    split_ifs
    · simp only [List.map_cons, List.sum_cons, List.length_append]
      omega
    · simp only [List.map_cons, List.sum_cons, ih]
      omega

/-- Points after the merge pass come from the input clusters. -/
theorem mergePass_points_subset (d00 : Lab3 → Lab3 → ℚ) (md : ℚ)
    (cls : List LabCluster) (m : LabCluster) (hm : m ∈ mergePass d00 md cls) :
    ∀ p ∈ m.points, ∃ c ∈ cls, p ∈ c.points := by
  suffices h : ∀ (acc : List LabCluster) (m : LabCluster),
      m ∈ cls.foldl (fun merged c => mergeInto d00 md c merged) acc →
      ∀ p ∈ m.points, (∃ c ∈ acc, p ∈ c.points) ∨ ∃ c ∈ cls, p ∈ c.points by
    intro p hp
    rcases h [] m hm p hp with ⟨c, hc, _⟩ | h'
    · simp at hc
    · exact h'
  clear hm m
  induction cls with
  | nil =>
    intro acc m hm p hp
    exact Or.inl ⟨m, hm, hp⟩
  | cons c rest ih =>
    intro acc m hm p hp
    rw [List.foldl_cons] at hm
    rcases ih (mergeInto d00 md c acc) m hm p hp with ⟨c', hc', hp'⟩ | ⟨c', hc', hp'⟩
    · rcases mergeInto_points_subset d00 md c acc c' hc' p hp' with h | ⟨m', hm', hp''⟩
      · exact Or.inr ⟨c, List.mem_cons_self c rest, h⟩
      · exact Or.inl ⟨m', hm', hp''⟩
    · exact Or.inr ⟨c', List.mem_cons_of_mem c hc', hp'⟩

/-- The merge pass keeps clusters non-empty. -/
theorem mergePass_all_nonempty (d00 : Lab3 → Lab3 → ℚ) (md : ℚ)
    (cls : List LabCluster) (hcls : ∀ c ∈ cls, c.points ≠ [])
    (m : LabCluster) (hm : m ∈ mergePass d00 md cls) : m.points ≠ [] := by
  suffices h : ∀ (acc : List LabCluster), (∀ c ∈ acc, c.points ≠ []) →
      (∀ c ∈ cls, c.points ≠ []) → ∀ m ∈ cls.foldl (fun merged c => mergeInto d00 md c merged) acc,
      m.points ≠ [] by
    exact h [] (by simp) hcls m hm
  clear hm m hcls
  induction cls with
  | nil =>
    intro acc hacc _ m hm
    exact hacc m hm
  | cons c rest ih =>
    intro acc hacc hcls m hm
    rw [List.foldl_cons] at hm
    refine ih (mergeInto d00 md c acc) ?_ (fun x hx => hcls x (List.mem_cons_of_mem c hx)) m hm
    intro x hx
    exact mergeInto_all_nonempty d00 md c acc (hcls c (List.mem_cons_self c rest)) hacc x hx

/-- The merge pass yields at most as many clusters as it is given. -/
theorem mergePass_length_le (d00 : Lab3 → Lab3 → ℚ) (md : ℚ) (cls : List LabCluster) :
    (mergePass d00 md cls).length ≤ cls.length := by
  suffices h : ∀ (acc : List LabCluster),
      (cls.foldl (fun merged c => mergeInto d00 md c merged) acc).length ≤
        acc.length + cls.length by
    simpa using h []
  induction cls with
  | nil => intro acc; simp
  | cons c rest ih =>
    intro acc
    rw [List.foldl_cons]
    calc (rest.foldl (fun merged c => mergeInto d00 md c merged)
          (mergeInto d00 md c acc)).length
        ≤ (mergeInto d00 md c acc).length + rest.length := ih _
      _ ≤ acc.length + 1 + rest.length := by
          have := mergeInto_length_le d00 md c acc
          omega
      _ = acc.length + (c :: rest).length := by
          rw [List.length_cons]
          omega

/-- The merge pass of a non-empty cluster list is non-empty. -/
theorem mergePass_ne_nil (d00 : Lab3 → Lab3 → ℚ) (md : ℚ) (cls : List LabCluster)
    (h : cls ≠ []) : mergePass d00 md cls ≠ [] := by
  suffices hstep : ∀ (rest : List LabCluster) (acc : List LabCluster), acc ≠ [] →
      rest.foldl (fun merged c => mergeInto d00 md c merged) acc ≠ [] by
    cases cls with
    | nil => exact absurd rfl h
    | cons c rest =>
      unfold mergePass
      rw [List.foldl_cons]
      exact hstep rest (mergeInto d00 md c []) (mergeInto_ne_nil d00 md c [])
  intro rest
  induction rest with
  | nil => intro acc hacc; exact hacc
  | cons c rest ih =>
    intro acc _
    rw [List.foldl_cons]
    exact ih (mergeInto d00 md c acc) (mergeInto_ne_nil d00 md c acc)

/-- The merge pass preserves the total point count. -/
theorem mergePass_sum (d00 : Lab3 → Lab3 → ℚ) (md : ℚ) (cls : List LabCluster) :
    ((mergePass d00 md cls).map fun m => m.points.length).sum =
      ((cls.map fun c => c.points.length)).sum := by
  suffices h : ∀ (acc : List LabCluster),
      ((cls.foldl (fun merged c => mergeInto d00 md c merged) acc).map
        fun m => m.points.length).sum =
      ((acc.map fun m => m.points.length)).sum + ((cls.map fun c => c.points.length)).sum by
    simpa using h []
  induction cls with
  | nil => intro acc; simp
  | cons c rest ih =>
    intro acc
    rw [List.foldl_cons, ih (mergeInto d00 md c acc), mergeInto_sum, List.map_cons,
      List.sum_cons]
    omega

/-- Pigeonhole: some entry of a non-empty list of naturals is at least the
average. -/
theorem exists_mul_ge_sum (l : List ℕ) (h : l ≠ []) :
    ∃ x ∈ l, l.sum ≤ l.length * x := by
  induction l with
  | nil => exact absurd rfl h
  | cons a rest ih =>
    cases rest with
    | nil => exact ⟨a, List.mem_singleton.mpr rfl, by simp⟩
    | cons b rest' =>
      rcases ih (by simp) with ⟨y, hy, hsum⟩
      by_cases hab : a ≤ y
      · refine ⟨y, List.mem_cons_of_mem a hy, ?_⟩
        rw [List.sum_cons, List.length_cons]
        have hmul : ((b :: rest').length + 1) * y = (b :: rest').length * y + y := by ring
        omega
      · refine ⟨a, List.mem_cons_self a _, ?_⟩
        rw [List.sum_cons, List.length_cons]
        have h2 : (b :: rest').length * y ≤ (b :: rest').length * a :=
          Nat.mul_le_mul_left _ (by omega)
        have hmul : ((b :: rest').length + 1) * a = (b :: rest').length * a + a := by ring
        omega

/-- Membership is preserved by the sort. -/
theorem mem_sortClusters (cls : List LabCluster) (c : LabCluster) :
    c ∈ sortClusters cls ↔ c ∈ cls :=
  (List.perm_insertionSort _ cls).mem_iff

/-- The sort of a non-empty list is non-empty. -/
theorem sortClusters_ne_nil (cls : List LabCluster) (h : cls ≠ []) :
    sortClusters cls ≠ [] := by
  intro hempty
  rcases List.exists_mem_of_ne_nil cls h with ⟨c, hc⟩
  have := (mem_sortClusters cls c).mpr hc
  rw [hempty] at this
  simp at this

/-- The sorted cluster list has non-increasing populations. -/
theorem sortClusters_sorted (cls : List LabCluster) :
    List.Sorted (fun a b : ℕ => a ≥ b) ((sortClusters cls).map fun c => c.points.length) := by
  have htotal : IsTotal LabCluster (fun a b => b.points.length ≤ a.points.length) :=
    ⟨fun a b => (le_total b.points.length a.points.length).imp id id⟩
  have htrans : IsTrans LabCluster (fun a b => b.points.length ≤ a.points.length) :=
    ⟨fun _ _ _ hab hbc => le_trans hbc hab⟩
  have hs := @List.sorted_insertionSort LabCluster
    (fun a b => b.points.length ≤ a.points.length) _ htotal htrans cls
  unfold sortClusters
  rw [List.Sorted, List.pairwise_map]
  exact hs

/-- The pipeline's population floor evaluates to `max 1 (3·total / 200)`. -/
theorem minCountFor_eval (total : ℕ) :
    minCountFor 1.5 total = max 1 ((3 * total) / 200) := by
  unfold minCountFor
  have h1 : (1.5 : ℚ) / 100 * (total : ℚ) = ((3 * total : ℕ) : ℚ) / ((200 : ℕ) : ℚ) := by
    push_cast
    ring
  rw [h1, Int.floor_toNat, Nat.floor_div_nat, Nat.floor_natCast]

/-- The floor never exceeds a positive total. -/
theorem minCountFor_le_self (total : ℕ) (h : 1 ≤ total) : minCountFor 1.5 total ≤ total := by
  rw [minCountFor_eval]
  omega

/-- Points surviving `mergeAndFilterClusters` come from the input clusters. -/
theorem mergeAndFilter_points_subset (d00 : Lab3 → Lab3 → ℚ) (cls : List LabCluster)
    (md mp : ℚ) (m : LabCluster) (hm : m ∈ mergeAndFilterClusters d00 cls md mp) :
    ∀ p ∈ m.points, ∃ c ∈ cls, p ∈ c.points := by
  unfold mergeAndFilterClusters at hm
  split_ifs at hm with hlen
  · intro p hp
    exact ⟨m, hm, hp⟩
  · intro p hp
    exact mergePass_points_subset d00 md cls m (List.mem_filter.mp hm).1 p hp

/-- C4's (amended) filter bound at `mergeAndFilterClusters` itself: when every
input cluster is non-empty, every surviving cluster's population reaches the
floor `max(1, ⌊1.5% × total⌋)` computed over the merged total. -/
theorem mergeAndFilter_reaches_floor (d00 : Lab3 → Lab3 → ℚ) (cls : List LabCluster)
    (md : ℚ) (hne : ∀ c ∈ cls, c.points ≠ [])
    (m : LabCluster) (hm : m ∈ mergeAndFilterClusters d00 cls md 1.5) :
    minCountFor 1.5 ((cls.map fun c => c.points.length).sum) ≤ m.points.length := by
  unfold mergeAndFilterClusters at hm
  split_ifs at hm with hlen
  · cases cls with
    | nil => simp at hm
    | cons c rest =>
      cases rest with
      | nil =>
        rcases List.mem_singleton.mp hm with rfl
        have h1 : 1 ≤ m.points.length :=
          List.length_pos_of_ne_nil (hne m (List.mem_singleton.mpr rfl))
        have : (([m].map fun c => c.points.length)).sum = m.points.length := by simp
        rw [this]
        exact minCountFor_le_self m.points.length h1
      | cons c2 rest2 => simp at hlen
  · have hsum := mergePass_sum d00 md cls
    rcases List.mem_filter.mp hm with ⟨_, hcount⟩
    have := of_decide_eq_true hcount
    rwa [hsum] at this

/-- Every deduplicated colour is a quantised input colour. -/
theorem deduplicateRgb_mem (pixels : List Rgb) (step : ℕ) :
    ∀ q ∈ deduplicateRgb pixels step, ∃ p ∈ pixels, q = quantize step p := by
  suffices h : ∀ (acc : List Rgb), ∀ q ∈ pixels.foldl (fun out p =>
      let qq := quantize step p
      if qq ∈ out then out else out ++ [qq]) acc, q ∈ acc ∨ ∃ p ∈ pixels, q = quantize step p by
    intro q hq
    rcases h [] q hq with h' | h'
    · simp at h'
    · exact h'
  induction pixels with
  | nil =>
    intro acc q hq
    exact Or.inl hq
  | cons p rest ih =>
    intro acc q hq
    rw [List.foldl_cons] at hq
    rcases ih _ q hq with h' | ⟨p', hp', hq'⟩
    · simp only at h'
      split_ifs at h' with hmem
      · exact Or.inl h'
      · rcases List.mem_append.mp h' with h'' | h''
        · exact Or.inl h''
        · exact Or.inr ⟨p, List.mem_cons_self p rest, List.mem_singleton.mp h''⟩
    · exact Or.inr ⟨p', List.mem_cons_of_mem p hp', hq'⟩

/-- Each channel of a quantised colour is a multiple of 8 and at most 256
(quantisation step 8). -/
theorem quantCh_eight (c : ℕ) : quantCh 8 c % 8 = 0 ∧ quantCh 8 c ≤ 256 := by
  unfold quantCh
  constructor
  · exact Nat.mul_mod_left _ 8
  · have h1 : min 255 c ≤ 255 := min_le_left _ _
    omega

/-- With at most 16 non-empty clusters, the population floor cannot eliminate
everything: the largest merged cluster reaches it. -/
theorem mergeAndFilter_ne_nil (d00 : Lab3 → Lab3 → ℚ) (cls : List LabCluster) (md : ℚ)
    (hne : cls ≠ []) (hall : ∀ c ∈ cls, c.points ≠ []) (hlen16 : cls.length ≤ 16) :
    mergeAndFilterClusters d00 cls md 1.5 ≠ [] := by
  unfold mergeAndFilterClusters
  split_ifs with hlen
  · exact hne
  · have hmne : mergePass d00 md cls ≠ [] := mergePass_ne_nil _ _ _ hne
    have hmall : ∀ m ∈ mergePass d00 md cls, m.points ≠ [] :=
      fun m hm => mergePass_all_nonempty _ _ _ hall m hm
    have hmlen : (mergePass d00 md cls).length ≤ 16 :=
      le_trans (mergePass_length_le _ _ _) hlen16
    have hmapne : ((mergePass d00 md cls).map fun m => m.points.length) ≠ [] := by
      intro h
      exact hmne (List.map_eq_nil_iff.mp h)
    rcases exists_mul_ge_sum _ hmapne with ⟨v, hv, hsum⟩
    rcases List.mem_map.mp hv with ⟨m, hm, rfl⟩
    apply List.ne_nil_of_mem (a := m)
    rw [List.mem_filter]
    refine ⟨hm, decide_eq_true ?_⟩
    rw [minCountFor_eval]
    have hlen1 : 1 ≤ m.points.length := List.length_pos_of_ne_nil (hmall m hm)
    have h16 : ((mergePass d00 md cls).map fun m => m.points.length).sum ≤
        16 * m.points.length := by
      calc ((mergePass d00 md cls).map fun m => m.points.length).sum
          ≤ ((mergePass d00 md cls).map fun m => m.points.length).length *
            m.points.length := hsum
        _ = (mergePass d00 md cls).length * m.points.length := by rw [List.length_map]
        _ ≤ 16 * m.points.length := Nat.mul_le_mul_right _ hmlen
    omega

/-- All points of the final sorted clusters are pipeline Lab points. -/
theorem extractClusters_points_subset (toLab : Rgb → Lab3) (d76 d00 : Lab3 → Lab3 → ℚ)
    (data : List ℕ) (width height : ℕ) (centroids : List Lab3) (c : LabCluster)
    (hc : c ∈ extractClusters toLab d76 d00 data width height centroids) :
    ∀ p ∈ c.points, p ∈ labPointsOf toLab d00 data width height := by
  unfold extractClusters at hc
  rw [mem_sortClusters] at hc
  intro p hp
  rcases mergeAndFilter_points_subset _ _ _ _ c hc p hp with ⟨c', hc', hp'⟩
  exact assign_points_subset _ _ _ c' hc' p hp'

/-- C3: whenever the pipeline succeeds — it raises neither `emptyInput` nor
`noColorsRemain` — the returned palette has at least one entry.  The two
hypotheses on the centroid list are what `kMeansLab` guarantees: it always
returns exactly `initialK ∈ [4, 16]` centroids. -/
theorem extractCore_success_nonempty (toLab : Rgb → Lab3) (d76 d00 : Lab3 → Lab3 → ℚ)
    (data : List ℕ) (width height : ℕ) (centroids : List Lab3)
    (hk : centroids.length ≤ 16) (hcne : centroids ≠ []) (pal : List Color)
    (hok : extractCore toLab d76 d00 data width height centroids = .ok pal) :
    pal ≠ [] := by
  unfold extractCore at hok
  split_ifs at hok with h1 h2
  rw [Except.ok.injEq] at hok
  rw [← hok]
  have hdne : dedupOf toLab d00 data width height ≠ [] := by
    intro h
    exact h2 (by rw [h]; rfl)
  have hlp : labPointsOf toLab d00 data width height ≠ [] := by
    unfold labPointsOf
    intro h
    exact hdne (List.map_eq_nil_iff.mp h)
  have hassign := assign_ne_nil d76 (labPointsOf toLab d00 data width height) centroids
    hlp hcne
  have hall := fun c hc =>
    assign_all_nonempty d76 (labPointsOf toLab d00 data width height) centroids c hc
  have hlen16 : (assignPointsToCentroids d76
      (labPointsOf toLab d00 data width height) centroids).length ≤ 16 :=
    le_trans (assign_length_le _ _ _) hk
  have hmf := mergeAndFilter_ne_nil d00 _ 10 hassign hall hlen16
  have hsort := sortClusters_ne_nil _ hmf
  unfold extractClusters
  intro h
  exact hsort (List.map_eq_nil_iff.mp h)

/-- Witness for `extractCore_success_nonempty`: the 1×1 buffer with pixel
(100, 100, 100, 255) succeeds with the one-entry palette
`#686868 / (104, 104, 104)`, which is indeed non-empty. -/
theorem extractCore_success_nonempty_witness :
    ([{ hex := "#686868", rgb := (104, 104, 104) }] : List Color) ≠ [] :=
  extractCore_success_nonempty (fun _ => ((0 : ℚ), (0 : ℚ), (0 : ℚ))) (fun _ _ => 0)
    (fun _ _ => 0) [100, 100, 100, 255] 1 1
    (List.replicate 4 ((0 : ℚ), (0 : ℚ), (0 : ℚ))) (by decide) (by decide)
    [{ hex := "#686868", rgb := (104, 104, 104) }] (by with_unfolding_all decide)

/-- C4 (amended): after merging, a cluster contributes a palette entry only if
its member count reaches the code's floor `max(1, ⌊1.5% × total⌋)`, where
`total` is the total sample population across all merged clusters (which the
merge pass preserves from the assigned clusters).  The original claim — no
cluster strictly below 1.5% of the total ever contributes — is false, because
`⌊·⌋` and the `max` with 1 let a cluster at the floor sit strictly below
1.5% of the total; the counterexample theorem exhibits this. -/
theorem merged_clusters_reach_floor (toLab : Rgb → Lab3) (d76 d00 : Lab3 → Lab3 → ℚ)
    (data : List ℕ) (width height : ℕ) (centroids : List Lab3) (c : LabCluster)
    (hc : c ∈ extractClusters toLab d76 d00 data width height centroids) :
    minCountFor 1.5 (((assignPointsToCentroids d76
        (labPointsOf toLab d00 data width height) centroids).map
      fun c => c.points.length).sum) ≤ c.points.length := by
  unfold extractClusters at hc
  rw [mem_sortClusters] at hc
  exact mergeAndFilter_reaches_floor d00 _ 10
    (fun c' hc' => assign_all_nonempty d76 _ centroids c' hc') c hc

/-- Witness for `merged_clusters_reach_floor`: in the 1×1 run on the pixel
(44, 44, 44, 255) the single surviving cluster has 1 point and the floor over
the total population 1 is `max 1 ⌊0.015⌋ = 1`. -/
theorem merged_clusters_reach_floor_witness :
    minCountFor 1.5 (((assignPointsToCentroids (fun _ _ => 0)
        (labPointsOf (fun _ => ((0 : ℚ), (0 : ℚ), (0 : ℚ))) (fun _ _ => 0)
          [44, 44, 44, 255] 1 1) (List.replicate 4 ((0 : ℚ), (0 : ℚ), (0 : ℚ)))).map
      fun c => c.points.length).sum) ≤
      ({ centroid := ((0 : ℚ), (0 : ℚ), (0 : ℚ)),
         points := [{ rgb := (48, 48, 48), lab := ((0 : ℚ), (0 : ℚ), (0 : ℚ)) }] }
        : LabCluster).points.length :=
  merged_clusters_reach_floor (fun _ => ((0 : ℚ), (0 : ℚ), (0 : ℚ))) (fun _ _ => 0)
    (fun _ _ => 0) [44, 44, 44, 255] 1 1 (List.replicate 4 ((0 : ℚ), (0 : ℚ), (0 : ℚ)))
    _ (by with_unfolding_all decide)

set_option maxRecDepth 40000 in
/-- C4 as stated is false: with 67 samples split into a 66-point cluster and a
1-point cluster whose centroids stay apart (ΔE00 = 100 ≥ 10, so no merge), the
total after merging is 67 and 1.5% of it is 1.005, yet the floor
`max(1, ⌊1.005⌋) = 1` lets the 1-point cluster survive and contribute its
palette entry `#F0F0F0`. -/
theorem claimC4_counterexample :
    (({ centroid := ((50 : ℚ), (50 : ℚ), (50 : ℚ)),
        points := [{ rgb := (240, 240, 240), lab := ((50 : ℚ), (50 : ℚ), (50 : ℚ)) }] }
       : LabCluster) ∈
      mergeAndFilterClusters (fun p q => if p = q then 0 else 100)
        [{ centroid := ((0 : ℚ), (0 : ℚ), (0 : ℚ)),
           points := List.replicate 66
             { rgb := (16, 16, 16), lab := ((0 : ℚ), (0 : ℚ), (0 : ℚ)) } },
         { centroid := ((50 : ℚ), (50 : ℚ), (50 : ℚ)),
           points := [{ rgb := (240, 240, 240), lab := ((50 : ℚ), (50 : ℚ), (50 : ℚ)) }] }]
        10 1.5) ∧
    clusterEntry
        ({ centroid := ((50 : ℚ), (50 : ℚ), (50 : ℚ)),
           points := [{ rgb := (240, 240, 240),
                        lab := ((50 : ℚ), (50 : ℚ), (50 : ℚ)) }] } : LabCluster) ∈
      (sortClusters (mergeAndFilterClusters (fun p q => if p = q then 0 else 100)
        [{ centroid := ((0 : ℚ), (0 : ℚ), (0 : ℚ)),
           points := List.replicate 66
             { rgb := (16, 16, 16), lab := ((0 : ℚ), (0 : ℚ), (0 : ℚ)) } },
         { centroid := ((50 : ℚ), (50 : ℚ), (50 : ℚ)),
           points := [{ rgb := (240, 240, 240), lab := ((50 : ℚ), (50 : ℚ), (50 : ℚ)) }] }]
        10 1.5)).map clusterEntry ∧
    ((1 : ℚ) < 1.5 / 100 * 67) := by
  refine ⟨by with_unfolding_all decide, by with_unfolding_all decide,
    by with_unfolding_all decide⟩

/-- C5: for every invocation, the cluster list the palette is built from is
sorted by non-increasing member count, and on success the palette is exactly
the entry list of those clusters in that order — so for all adjacent output
entries the earlier entry's source cluster population is ≥ the later one's. -/
theorem extract_dominance_ordering (toLab : Rgb → Lab3) (d76 d00 : Lab3 → Lab3 → ℚ)
    (data : List ℕ) (width height : ℕ) (centroids : List Lab3) :
    List.Sorted (fun a b : ℕ => a ≥ b)
      ((extractClusters toLab d76 d00 data width height centroids).map
        fun c => c.points.length) ∧
    ∀ pal : List Color, extractCore toLab d76 d00 data width height centroids = .ok pal →
      pal = (extractClusters toLab d76 d00 data width height centroids).map clusterEntry := by
  constructor
  · unfold extractClusters
    exact sortClusters_sorted _
  · intro pal hok
    unfold extractCore at hok
    split_ifs at hok
    rw [Except.ok.injEq] at hok
    exact hok.symm

/-- Witness for `extract_dominance_ordering`: the 1×1 run on the pixel
(30, 60, 90, 255) succeeds with the one-entry palette `#204058`, which equals
the entry list of its (sorted) cluster list. -/
theorem extract_dominance_ordering_witness :
    ([{ hex := "#204058", rgb := (32, 64, 88) }] : List Color) =
      (extractClusters (fun _ => ((0 : ℚ), (0 : ℚ), (0 : ℚ))) (fun _ _ => 0) (fun _ _ => 0)
        [30, 60, 90, 255] 1 1 (List.replicate 4 ((0 : ℚ), (0 : ℚ), (0 : ℚ)))).map
        clusterEntry :=
  (extract_dominance_ordering (fun _ => ((0 : ℚ), (0 : ℚ), (0 : ℚ))) (fun _ _ => 0)
    (fun _ _ => 0) [30, 60, 90, 255] 1 1 (List.replicate 4 ((0 : ℚ), (0 : ℚ), (0 : ℚ)))).2
    [{ hex := "#204058", rgb := (32, 64, 88) }] (by with_unfolding_all decide)

/-- C9: on success, every channel of every emitted palette entry is an integer
multiple of the quantisation step 8 and lies in [0, 256] — the value 256 arises
because the clamp to [0, 255] precedes the rounding to the nearest multiple
of 8 in `deduplicateRgb`, and the palette representative is always one of the
deduplicated (quantised) triples, or (0, 0, 0) for an empty cluster. -/
theorem palette_rgb_quantized (toLab : Rgb → Lab3) (d76 d00 : Lab3 → Lab3 → ℚ)
    (data : List ℕ) (width height : ℕ) (centroids : List Lab3) (pal : List Color)
    (entry : Color) (hok : extractCore toLab d76 d00 data width height centroids = .ok pal)
    (hentry : entry ∈ pal) :
    (entry.rgb.1 % 8 = 0 ∧ entry.rgb.1 ≤ 256) ∧
    (entry.rgb.2.1 % 8 = 0 ∧ entry.rgb.2.1 ≤ 256) ∧
    (entry.rgb.2.2 % 8 = 0 ∧ entry.rgb.2.2 ≤ 256) := by
  unfold extractCore at hok
  split_ifs at hok
  rw [Except.ok.injEq] at hok
  rw [← hok] at hentry
  rcases List.mem_map.mp hentry with ⟨c, hc, hce⟩
  have hrgb : entry.rgb = mostFrequentRgb (c.points.map fun p => p.rgb) := by
    rw [← hce]
    exact rfl
  by_cases hpts : c.points.map (fun p => p.rgb) = []
  · rw [hrgb, hpts]
    decide
  · have hmem := mostFrequentRgb_mem _ hpts
    rcases List.mem_map.mp hmem with ⟨p, hp, hpr⟩
    have hpl := extractClusters_points_subset toLab d76 d00 data width height centroids
      c hc p hp
    unfold labPointsOf at hpl
    rcases List.mem_map.mp hpl with ⟨rgb0, hrgb0, hpeq⟩
    rcases deduplicateRgb_mem _ _ rgb0 hrgb0 with ⟨p0, _, hq⟩
    have hchain : entry.rgb = quantize 8 p0 := by
      rw [hrgb, ← hpr, ← hpeq, ← hq]
    rw [hchain]
    unfold quantize
    exact ⟨quantCh_eight p0.1, quantCh_eight p0.2.1, quantCh_eight p0.2.2⟩

/-- Witness for `palette_rgb_quantized`: the 1×1 run on the pixel
(10, 20, 30, 255) emits the entry `#081820 / (8, 24, 32)`, whose channels are
multiples of 8 within [0, 256]. -/
theorem palette_rgb_quantized_witness :
    (((8 : ℕ) % 8 = 0 ∧ (8 : ℕ) ≤ 256) ∧
      ((24 : ℕ) % 8 = 0 ∧ (24 : ℕ) ≤ 256) ∧
      ((32 : ℕ) % 8 = 0 ∧ (32 : ℕ) ≤ 256)) :=
  palette_rgb_quantized (fun _ => ((0 : ℚ), (0 : ℚ), (0 : ℚ))) (fun _ _ => 0) (fun _ _ => 0)
    [10, 20, 30, 255] 1 1 (List.replicate 4 ((0 : ℚ), (0 : ℚ), (0 : ℚ)))
    [{ hex := "#081820", rgb := (8, 24, 32) }] { hex := "#081820", rgb := (8, 24, 32) }
    (by with_unfolding_all decide) (by decide)

set_option maxRecDepth 10000 in
/-- `toString(16)` of a byte yields one digit below 16 and two digits otherwise. -/
theorem toDigits_byte : ∀ m : ℕ, m < 256 → Nat.toDigits 16 m =
    if m < 16 then [Nat.digitChar m] else [Nat.digitChar (m / 16), Nat.digitChar (m % 16)] := by
  decide

/-- Padding and uppercasing the byte digits gives the two-character encoding. -/
theorem toHex_upper (n : ℕ) : (toHex n).map Char.toUpper = hexByte (min 255 n) := by
  have hm : min 255 n < 256 := by omega
  unfold toHex hexByte
  rw [toDigits_byte (min 255 n) hm]
  by_cases h16 : min 255 n < 16
  · rw [if_pos h16]
    have hd : min 255 n / 16 = 0 := Nat.div_eq_of_lt h16
    have hmm : min 255 n % 16 = min 255 n := Nat.mod_eq_of_lt h16
    simp [hd, hmm]
    decide
  · rw [if_neg h16]
    simp

/-- Uppercased base-16 digits are uppercase hexadecimal characters. -/
theorem digitChar_upper_mem : ∀ k : ℕ, k < 16 → (Nat.digitChar k).toUpper ∈ hexDigitsUpper := by
  decide

/-- C10: every hex string the pipeline can emit is `'#'` followed by the
two-digit uppercase hexadecimal encodings of the three channels clamped to
[0, 255]; it is always a well-formed uppercase `#RRGGBB`; the channel value
256 encodes like 255 (`FF`), so the `hex` and `rgb` fields can disagree; and on
success every entry's `hex` is exactly `rgbToHex` of its `rgb` fields. -/
theorem palette_hex_wellformed (toLab : Rgb → Lab3) (d76 d00 : Lab3 → Lab3 → ℚ)
    (data : List ℕ) (width height : ℕ) (centroids : List Lab3) :
    (∀ r g b : ℕ, rgbToHex r g b =
      String.mk ('#' :: (hexByte (min 255 r) ++ hexByte (min 255 g) ++ hexByte (min 255 b)))) ∧
    (∀ r g b : ℕ, isHexColor (rgbToHex r g b)) ∧
    rgbToHex 256 0 0 = rgbToHex 255 0 0 ∧
    rgbToHex 256 0 0 = "#FF0000" ∧
    (∀ (pal : List Color) (entry : Color),
      extractCore toLab d76 d00 data width height centroids = .ok pal → entry ∈ pal →
      entry.hex = rgbToHex entry.rgb.1 entry.rgb.2.1 entry.rgb.2.2) := by
  have hsharp : Char.toUpper '#' = '#' := by decide
  have hrep : ∀ r g b : ℕ, rgbToHex r g b =
      String.mk ('#' :: (hexByte (min 255 r) ++ hexByte (min 255 g) ++ hexByte (min 255 b))) := by
    intro r g b
    unfold rgbToHex
    congr 1
    rw [List.map_append, List.map_append, List.map_cons, hsharp,
      toHex_upper, toHex_upper, toHex_upper]
    simp [List.append_assoc]
  refine ⟨hrep, ?_, ?_, by decide, ?_⟩
  · intro r g b
    rw [hrep]
    refine ⟨?_, ?_, ?_⟩
    · show ('#' :: (hexByte (min 255 r) ++ hexByte (min 255 g) ++ hexByte (min 255 b))).length = 7
      simp [hexByte]
    · exact rfl
    · intro ch hch
      have hch' : ch ∈ hexByte (min 255 r) ++ hexByte (min 255 g) ++ hexByte (min 255 b) := hch
      simp only [hexByte, List.append_assoc, List.mem_append, List.mem_cons,
        List.mem_singleton, List.not_mem_nil, or_false] at hch'
      have hr : min 255 r ≤ 255 := min_le_left _ _
      have hg : min 255 g ≤ 255 := min_le_left _ _
      have hb : min 255 b ≤ 255 := min_le_left _ _
      rcases hch' with (h | h) | ((h | h) | (h | h)) <;> rw [h] <;>
        exact digitChar_upper_mem _ (by omega)
  · rw [hrep 256 0 0, hrep 255 0 0]
    norm_num
  · intro pal entry hok hentry
    unfold extractCore at hok
    split_ifs at hok
    rw [Except.ok.injEq] at hok
    rw [← hok] at hentry
    rcases List.mem_map.mp hentry with ⟨c, hc, hce⟩
    rw [← hce]
    exact rfl

/-- Witness for `palette_hex_wellformed`: in the 1×1 run on the pixel
(200, 100, 50, 255) the emitted entry is `#C86830 / (200, 104, 48)`, and its
hex string is `rgbToHex` of its rgb fields. -/
theorem palette_hex_wellformed_witness :
    ({ hex := "#C86830", rgb := (200, 104, 48) } : Color).hex =
      rgbToHex 200 104 48 :=
  (palette_hex_wellformed (fun _ => ((0 : ℚ), (0 : ℚ), (0 : ℚ))) (fun _ _ => 0)
    (fun _ _ => 0) [200, 100, 50, 255] 1 1
    (List.replicate 4 ((0 : ℚ), (0 : ℚ), (0 : ℚ)))).2.2.2.2
    [{ hex := "#C86830", rgb := (200, 104, 48) }] { hex := "#C86830", rgb := (200, 104, 48) }
    (by with_unfolding_all decide) (by decide)

/-- C1 is violated by the code: on the 1×1 buffer holding the RGBA pixel
(100, 100, 100, 255) the only ingested sample is (100, 100, 100), the pipeline
succeeds, and the emitted palette RGB is the quantised triple (104, 104, 104)
— `deduplicateRgb` pushes the quantised value, not the original sample — which
equals no ingested sample, contradicting the realness invariant and the code's
own docstring "Returns only colors that actually exist in the image". -/
theorem claimC1_code_bug :
    extractCore (fun _ => ((0 : ℚ), (0 : ℚ), (0 : ℚ))) (fun _ _ => 0) (fun _ _ => 0)
        [100, 100, 100, 255] 1 1 (List.replicate 4 ((0 : ℚ), (0 : ℚ), (0 : ℚ))) =
      .ok [{ hex := "#686868", rgb := (104, 104, 104) }] ∧
    sampledOf [100, 100, 100, 255] 1 1 = [(100, 100, 100)] ∧
    ((104, 104, 104) : Rgb) ∉ sampledOf [100, 100, 100, 255] 1 1 :=
  ⟨by with_unfolding_all decide, by decide, by decide⟩

/-- C2 is violated by the code: on the 1×1 buffer holding the RGBA pixel
(252, 0, 0, 255) the pipeline succeeds and emits the rgb field (256, 0, 0) —
`Math.round(252 / 8) * 8 = 256` after the clamp to [0, 255] — whose red
channel 256 lies outside [0, 255]; the hex field clamps it back to `FF`,
witnessing that 256 is unintended. -/
theorem claimC2_code_bug :
    extractCore (fun _ => ((0 : ℚ), (0 : ℚ), (0 : ℚ))) (fun _ _ => 0) (fun _ _ => 0)
        [252, 0, 0, 255] 1 1 (List.replicate 4 ((0 : ℚ), (0 : ℚ), (0 : ℚ))) =
      .ok [{ hex := "#FF0000", rgb := (256, 0, 0) }] ∧
    ¬(256 : ℕ) ≤ 255 :=
  ⟨by with_unfolding_all decide, by decide⟩
